import Mathlib

/-!
Shallow embedding of the vote-record extraction engine of the
madison_city_meetings_data repository (src/extract_votes.py together with
src/unapproved_minutes.py), and proofs about it.

Texts are modelled as lists of characters (`Str`).  Each Python regular
expression used by the source is translated into an explicit, executable
matching function; in every case the regex is deterministic enough that the
leftmost-match / greedy / lazy semantics of the `re` module can be realised
by direct scanning, which is documented at each definition.
-/

set_option maxRecDepth 10000

namespace Madison

abbrev Str := List Char

/-- ASCII lower-casing, as used by `str.lower()` and `re.IGNORECASE`
on the ASCII texts handled by the extractor. -/
def lowChar (c : Char) : Char :=
  if 'A' ≤ c ∧ c ≤ 'Z' then Char.ofNat (c.toNat + 32) else c

/-- Python regex `\s` on ASCII text: space, tab, newline, carriage return,
vertical tab, form feed. -/
def pySpace (c : Char) : Bool :=
  c == ' ' || c == '\t' || c == '\n' || c == '\r' || c == '\x0b' || c == '\x0c'

/-- Python regex `\d` on ASCII text. -/
def isDig (c : Char) : Bool := '0' ≤ c && c ≤ '9'

/-- Lower-case a whole text, as `str.lower()` does. -/
def lowStr (s : Str) : Str := s.map lowChar

/-- Length of the maximal leading whitespace run (greedy `\s*`). -/
def wsRun : Str → Nat
  | [] => 0
  | c :: s => if pySpace c then wsRun s + 1 else 0

/-- Length of the maximal leading digit run (greedy `\d*` / `\d+`). -/
def digRun : Str → Nat
  | [] => 0
  | c :: s => if isDig c then digRun s + 1 else 0

/-- `pat` is a (case-sensitive) prefix of `s`. -/
def litStarts : Str → Str → Bool
  | [], _ => true
  | _ :: _, [] => false
  | c :: p, d :: s => c == d && litStarts p s

/-- `pat` is a case-insensitive prefix of `s` (regex `re.IGNORECASE`). -/
def ciStarts : Str → Str → Bool
  | [], _ => true
  | _ :: _, [] => false
  | c :: p, d :: s => lowChar c == lowChar d && ciStarts p s

/-- Index of the leftmost case-sensitive occurrence of `pat` in `s`. -/
def findLit (pat s : Str) : Option Nat :=
  (List.range (s.length + 1)).find? (fun i => litStarts pat (s.drop i))

/-- Index of the leftmost case-insensitive occurrence of `pat` in `s`. -/
def findCI (pat s : Str) : Option Nat :=
  (List.range (s.length + 1)).find? (fun i => ciStarts pat (s.drop i))

/-- Python `pat in s` (case-sensitive substring test). -/
def containsLit (pat s : Str) : Bool := (findLit pat s).isSome

/-- Case-insensitive substring test (`re.search` of a literal with
`re.IGNORECASE`). -/
def containsCI (pat s : Str) : Bool := (findCI pat s).isSome

/-- Python `str.strip()`. -/
def pyStrip (s : Str) : Str :=
  ((s.dropWhile (fun c => pySpace c)).reverse.dropWhile (fun c => pySpace c)).reverse

/-- First index at which a run of at least 5 digits starts: the leftmost
match of `\d{5,6}` begins at the head of the first such run. -/
def dig5At (s : Str) : Bool := (s.take 5).length == 5 && (s.take 5).all isDig

def findDig5 (s : Str) : Option Nat :=
  (List.range (s.length + 1)).find? (fun i => dig5At (s.drop i))

/-- `re.split(pat, s, flags=re.IGNORECASE)[0]` for a literal `pat`:
the text before the first occurrence, or all of `s`. -/
def truncCI (pat s : Str) : Str :=
  match findCI pat s with
  | some i => s.take i
  | none => s

/-- `re.split(r'\d{5,6}', s)[0]`. -/
def truncDig (s : Str) : Str :=
  match findDig5 s with
  | some i => s.take i
  | none => s

/-- The marker truncations of `parse_names` (src/extract_votes.py lines
88-99), applied in source order. -/
def applyMarkers (s : Str) : Str :=
  let s1 := truncCI ("Enactment No:").data s
  let s2 := truncCI ("City of Madison Page").data s1
  let s3 := truncDig s2
  let s4 := truncCI ("REFER ALL").data s3
  let s5 := truncCI ("ADJOURN").data s4
  let s6 := truncCI ("SWEARING IN").data s5
  let s7 := truncCI ("CONVENE").data s6
  truncCI ("ROLL CALL").data s7

/-- One scanning pass of `re.sub(r'\s*and\s*', ';', s, flags=re.IGNORECASE)`
(line 102): at the current position the pattern matches exactly when the
maximal whitespace run is followed by `and` (case-insensitively); the match
then greedily extends over the trailing whitespace run.  Scanning is
leftmost and non-overlapping, so after a replacement the scan resumes past
the consumed span; otherwise it advances one character.  The fuel only
drives the structural recursion: every step consumes at least one
character, so `s.length` steps reproduce the scan exactly. -/
def subAndGo : Nat → Str → Str
  | 0, s => s
  | _, [] => []
  | fuel + 1, c :: s =>
    let w := wsRun (c :: s)
    if ciStarts ("and").data ((c :: s).drop w) then
      ';' :: subAndGo fuel ((c :: s).drop (w + 3 + wsRun ((c :: s).drop (w + 3))))
    else
      c :: subAndGo fuel s

def subAnd (s : Str) : Str := subAndGo s.length s

/-- `re.sub(r'\s*;\s*', ';', s)` (line 103), by the same scanning scheme:
a match at the current position is the maximal whitespace run followed by a
semicolon and its trailing whitespace run. -/
def normSemiGo : Nat → Str → Str
  | 0, s => s
  | _, [] => []
  | fuel + 1, c :: s =>
    let w := wsRun (c :: s)
    if ((c :: s).drop w).take 1 == [';'] then
      ';' :: normSemiGo fuel ((c :: s).drop (w + 1 + wsRun ((c :: s).drop (w + 1))))
    else
      c :: normSemiGo fuel s

def normSemi (s : Str) : Str := normSemiGo s.length s

/-- `re.sub(r'\s+', ' ', s)` (line 111): each maximal whitespace run
becomes a single space. -/
def collapseWsGo : Nat → Str → Str
  | 0, s => s
  | _, [] => []
  | fuel + 1, c :: s =>
    if pySpace c then ' ' :: collapseWsGo fuel (s.drop (wsRun s))
    else c :: collapseWsGo fuel s

def collapseWs (s : Str) : Str := collapseWsGo s.length s

/-- The vote-type labels of the header-stripping substitution at line 112
(`Ayes|Noes|Excused|Recused|Non Voting`; note: no `Abstentions`),
in the alternation order of the source pattern. -/
def hdrLabels1 : List Str :=
  [("Ayes").data, ("Noes").data, ("Excused").data, ("Recused").data, ("Non Voting").data]

/-- All six vote-type labels, in the alternation order of the section-split
pattern at line 568. -/
def hdrLabelsAll : List Str :=
  [("Ayes").data, ("Noes").data, ("Abstentions").data, ("Recused").data,
   ("Excused").data, ("Non Voting").data]

/-- Anchored match of `Label:\s*\d+\s*-\s*` for a label drawn from `labels`
(tried in alternation order); returns the label, the declared count and the
number of characters consumed.  The pattern is deterministic: `\s*` cannot
consume digits and `\d+` cannot consume `-`, so the greedy runs are forced. -/
def matchHdrAt (labels : List Str) (s : Str) : Option (Str × Nat × Nat) :=
  match labels.find? (fun L => litStarts L s) with
  | none => none
  | some L =>
    match s.drop L.length with
    | ':' :: t =>
      let a := wsRun t
      let t1 := t.drop a
      let d := digRun t1
      if d == 0 then none
      else
        let t2 := t1.drop d
        let b := wsRun t2
        match t2.drop b with
        | '-' :: t3 => some (L, decodeDigits (t1.take d), L.length + 1 + a + d + b + 1 + wsRun t3)
        | _ => none
    | _ => none
where
  /-- `int(...)` on a string of decimal digits. -/
  decodeDigits (ds : Str) : Nat :=
    ds.foldl (fun n c => n * 10 + (c.toNat - 48)) 0

/-- Anchored case-insensitive match of `Label:\s*\d+\s*-` (no trailing
whitespace), the header form used by the
vote-section-boundary patterns at lines 541-543 and the narrative
vote-start pattern at line 301; returns the consumed length. -/
def matchHdrShortCIAt (s : Str) : Option Nat :=
  match hdrLabelsAll.find? (fun L => ciStarts L s) with
  | none => none
  | some L =>
    match s.drop L.length with
    | ':' :: t =>
      let a := wsRun t
      let t1 := t.drop a
      let d := digRun t1
      if d == 0 then none
      else
        let t2 := t1.drop d
        let b := wsRun t2
        match t2.drop b with
        | '-' :: _ => some (L.length + 1 + a + d + b + 1)
        | _ => none
    | _ => none

/-- Leftmost full (case-sensitive) vote-type header match in `s`:
start index together with consumed length. -/
def hdrFindAll (s : Str) : Option (Nat × (Str × Nat × Nat)) :=
  (List.range (s.length + 1)).findSome?
    (fun i => (matchHdrAt hdrLabelsAll (s.drop i)).map (fun r => (i, r)))

/-- Leftmost match of the line-112 header pattern. -/
def hdrFind1 (s : Str) : Option (Nat × (Str × Nat × Nat)) :=
  (List.range (s.length + 1)).findSome?
    (fun i => (matchHdrAt hdrLabels1 (s.drop i)).map (fun r => (i, r)))

/-- Leftmost case-insensitive short header match. -/
def hdrFindShortCI (s : Str) : Option (Nat × Nat) :=
  (List.range (s.length + 1)).findSome?
    (fun i => (matchHdrShortCIAt (s.drop i)).map (fun k => (i, k)))

/-- `re.sub(r'(?:Ayes|Noes|Excused|Recused|Non Voting):\s*\d+\s*-\s*', '',
name)` (line 112): delete each leftmost non-overlapping header match.
Fuel-driven; `s.length` steps always suffice because every match consumes at
least one character. -/
def subHdrGo : Nat → Str → Str
  | 0, s => s
  | fuel + 1, s =>
    match hdrFind1 s with
    | none => s
    | some (i, _, _, k) => s.take i ++ subHdrGo fuel (s.drop (i + k))

def subHdr (s : Str) : Str := subHdrGo s.length s

/-- `re.sub(r'[.,;]$', '', name)` (line 113): remove one trailing
punctuation character. -/
def rstripPunct (s : Str) : Str :=
  match s.reverse with
  | c :: t => if c == '.' || c == ',' || c == ';' then t.reverse else s
  | [] => s

/-- The non-name blocklist of lines 115-118 (all lower case). -/
def blockWords : List Str :=
  [("city of madison").data, ("page").data, ("substitute").data, ("sponsor").data,
   ("refer").data, ("adjourn").data, ("swearing").data, ("convene").data,
   ("roll call").data]

def blocklisted (n : Str) : Bool :=
  blockWords.any (fun kw => containsLit kw (lowStr n))

/-- The per-candidate cleanup of lines 108-119 of `parse_names`: strip,
collapse whitespace, remove header fragments, remove one trailing
punctuation mark, strip again, then keep the candidate unless it is empty
or blocklisted. -/
def candOut (part : Str) : Option Str :=
  let name := pyStrip part
  if name = [] then none
  else
    let n1 := collapseWs name
    let n2 := subHdr n1
    let n3 := rstripPunct n2
    let n4 := pyStrip n3
    if n4 ≠ [] ∧ blocklisted n4 = false then some n4 else none

/-- `parse_names` (src/extract_votes.py lines 79-121). -/
def parseNames (s : Str) : List Str :=
  if s = [] then []
  else
    let s1 := pyStrip s
    let s2 := applyMarkers s1
    let s3 := subAnd s2
    let s4 := normSemi s3
    let parts := s4.splitOn ';'
    ((parts.filterMap candOut).filter (fun n => n ≠ []))

/-- The leftmost match of the vote-section patterns of lines 541-543:
a case-insensitive short header followed lazily by any text up to a
lookahead for `endLit`.  The engine takes the first header position from
which an occurrence of `endLit` follows; `match.end()` is the position of
that first occurrence (the lookahead is zero width).  If the first header
has no later occurrence of `endLit`, no later header has one either, so the
whole pattern fails. -/
def voteSectionEndFor (endLit s : Str) : Option Nat :=
  match hdrFindShortCI s with
  | none => none
  | some (i, k) => (findCI endLit (s.drop (i + k))).map (fun j => i + k + j)

/-- Lines 540-551: try the `Enactment No:` pattern first, then the
`City of Madison Page` pattern. -/
def voteSectionEnd (s : Str) : Option Nat :=
  match voteSectionEndFor ("Enactment No:").data s with
  | some e => some e
  | none => voteSectionEndFor ("City of Madison Page").data s

/-- The boundary keywords of line 554, in source list order. -/
def boundaryLits : List Str :=
  [("ROLL CALL").data, ("SWEARING IN").data, ("CONVENE").data,
   ("ADJOURN").data, ("REFER ALL").data]

/-- Lines 553-563: if a vote-section end was found, truncate the text at
the first boundary keyword (first keyword in list order that occurs in the
remaining text) after that end. -/
def trimAtBoundary (s : Str) : Str :=
  match voteSectionEnd s with
  | none => s
  | some e =>
    match boundaryLits.findSome? (fun b => findCI b (s.drop e)) with
    | some j => s.take (e + j)
    | none => s

/-- `re.split` with the capturing header pattern of line 568: the resulting
list alternates the text between matches with the matched separators
themselves.  Fuel-driven; every separator consumes at least one character,
so `s.length` steps suffice. -/
def splitVoteSecsGo : Nat → Str → List Str
  | 0, s => [s]
  | fuel + 1, s =>
    match hdrFindAll s with
    | none => [s]
    | some (i, _, _, k) =>
      s.take i :: (s.drop i).take k :: splitVoteSecsGo fuel (s.drop (i + k))

def splitVoteSecs (s : Str) : List Str := splitVoteSecsGo s.length s

/-- The intermediate tallies and name lists accumulated by `_process_item`
(lines 522-534). -/
structure VoteData where
  ayes : List Str := []
  ayes_count : Int := 0
  noes : List Str := []
  noes_count : Int := 0
  abstentions : List Str := []
  abstentions_count : Int := 0
  excused : List Str := []
  excused_count : Int := 0
  recused : List Str := []
  recused_count : Int := 0
  non_voting : List Str := []
  non_voting_count : Int := 0
deriving Repr, DecidableEq

/-- The label-dispatched `extend` of lines 586-597 and 623-634. -/
def addNames (vd : VoteData) (label : Str) (ns : List Str) : VoteData :=
  if label = ("Ayes").data then { vd with ayes := vd.ayes ++ ns }
  else if label = ("Noes").data then { vd with noes := vd.noes ++ ns }
  else if label = ("Abstentions").data then { vd with abstentions := vd.abstentions ++ ns }
  else if label = ("Recused").data then { vd with recused := vd.recused ++ ns }
  else if label = ("Excused").data then { vd with excused := vd.excused ++ ns }
  else if label = ("Non Voting").data then { vd with non_voting := vd.non_voting ++ ns }
  else vd

/-- The label-dispatched count assignment of lines 600-612. -/
def setCount (vd : VoteData) (label : Str) (c : Nat) : VoteData :=
  if label = ("Ayes").data then { vd with ayes_count := c }
  else if label = ("Noes").data then { vd with noes_count := c }
  else if label = ("Abstentions").data then { vd with abstentions_count := c }
  else if label = ("Recused").data then { vd with recused_count := c }
  else if label = ("Excused").data then { vd with excused_count := c }
  else if label = ("Non Voting").data then { vd with non_voting_count := c }
  else vd

/-- The state of the section loop of lines 572-618: the active vote-type
label, the raw name text accumulated under it, and the tallies so far. -/
structure SecState where
  cs : Option Str := none
  names : List Str := []
  vd : VoteData := {}
deriving Repr, DecidableEq

/-- Flush the accumulated name text into the active label
(`parse_names(' '.join(current_names))`, lines 584-597). -/
def flushSec (st : SecState) : VoteData :=
  match st.cs with
  | some L => if st.names ≠ [] then addNames st.vd L (parseNames (List.intercalate [' '] st.names)) else st.vd
  | none => st.vd

/-- One iteration of the section loop (lines 577-618): skip blank sections;
on a header section flush the previous label and install the new label and
count; otherwise accumulate the section text under the active label. -/
def secStep (st : SecState) (sec : Str) : SecState :=
  if pyStrip sec = [] then st
  else
    match matchHdrAt hdrLabelsAll sec with
    | some (label, count, _) =>
      { cs := some label, names := [], vd := setCount (flushSec st) label count }
    | none =>
      if st.cs.isSome then { st with names := st.names ++ [sec] } else st

/-- The lookahead of the non-voting fallback pattern (line 640):
`Enactment No:`, `City of Madison Page`, a 5-6 digit run, or `$` (end of
string, or just before a final newline; the pattern carries no flags). -/
def nvLookAt (full : Str) (pos : Nat) : Bool :=
  litStarts ("Enactment No:").data (full.drop pos) ||
  litStarts ("City of Madison Page").data (full.drop pos) ||
  dig5At (full.drop pos) ||
  pos == full.length ||
  (pos + 1 == full.length && (full.drop pos).take 1 == ['\n'])

/-- Minimal end position for the lazy group `([^;\n]+?)` started at
`gstart`: the group must be nonempty, contain no `;` or newline, and end
where the lookahead holds. -/
def nvScan (full : Str) (gstart : Nat) : Option Nat :=
  (List.range (full.length + 1)).find?
    (fun e => decide (gstart < e) &&
      ((full.take e).drop gstart).all (fun c => !(c == ';' || c == '\n')) &&
      nvLookAt full e)

/-- Backtracking over the greedy `\s*` before the lazy group: try the
maximal whitespace run first, then shorter runs. -/
def nvTryW (full : Str) (afterDash : Nat) : Nat → Option Str
  | 0 => (nvScan full afterDash).map (fun e => (full.take e).drop afterDash)
  | w + 1 =>
    match nvScan full (afterDash + w + 1) with
    | some e => some ((full.take e).drop (afterDash + w + 1))
    | none => nvTryW full afterDash w

/-- Anchored match, at absolute position `i` of `full`, of the fallback
pattern `Non Voting:\s*\d+\s*-\s*([^;\n]+?)(?=...)` of line 640
(case-sensitive); returns the captured group. -/
def matchNVAt (full : Str) (i : Nat) : Option Str :=
  if litStarts ("Non Voting:").data (full.drop i) then
    let t := full.drop (i + 11)
    let a := wsRun t
    let d := digRun (t.drop a)
    if d == 0 then none
    else
      let t2 := t.drop (a + d)
      let b := wsRun t2
      if (t2.drop b).take 1 == ['-'] then
        let afterDash := i + 11 + a + d + b + 1
        nvTryW full afterDash (wsRun (full.drop afterDash))
      else none
  else none

/-- `re.search` of the fallback pattern (lines 638-644): leftmost start. -/
def nonVotingFallback (text : Str) : Option Str :=
  (List.range (text.length + 1)).findSome? (fun i => matchNVAt text i)

/-- The sections actually processed: at most 200 (lines 574-575). -/
def sectionsOf (t : Str) : List Str := (splitVoteSecs (t.take 50000)).take 200

/-- The whole non-unanimous branch of `_process_item` (lines 539-644):
vote-section boundary trimming, size-capped section split, the section
loop with final flush, and the non-voting fallback. -/
def computeVotes (text0 : Str) : VoteData :=
  let text := trimAtBoundary text0
  let st := (sectionsOf text).foldl secStep {}
  let vd := flushSec st
  if vd.non_voting_count > 0 ∧ vd.non_voting = [] then
    match nonVotingFallback text with
    | some g => { vd with non_voting := parseNames g }
    | none => vd
  else vd

/-- The `VoteRecord` dataclass (src/extract_votes.py lines 10-32). -/
structure VoteRecord where
  item_number : Str
  motion_number : Str
  motion_title : Str
  motion_type : Str
  legistar_number : Str
  legistar_link : Str
  description : Str
  is_unanimous : Bool
  ayes : List Str
  ayes_count : Int
  noes : List Str
  noes_count : Int
  abstentions : List Str
  abstentions_count : Int
  excused : List Str
  excused_count : Int
  recused : List Str
  recused_count : Int
  non_voting : List Str
  non_voting_count : Int
  page_number : Nat
deriving Repr, DecidableEq

/-- Line 519. -/
def legistarLinkFor (leg : Str) : Str :=
  ("https://madison.legistar.com/gateway.aspx?m=l&id=/matter.aspx?key=").data ++ leg

/-- Line 520: `text.split(motion_title)[0].strip() if motion_title in text
else ""` — the stripped text before the first occurrence of the title. -/
def descriptionOf (motionTitle text : Str) : Str :=
  match findLit motionTitle text with
  | some i => pyStrip (text.take i)
  | none => []

/-- Lines 536-538: the unanimous sentinel data. -/
def unanimousVD : VoteData := { ayes := [("UNANIMOUS").data], ayes_count := -1 }

/-- `_process_item` (src/extract_votes.py lines 515-671). -/
def processItem (item_number legistar_number text : Str) (page_number : Nat)
    (motion_number motion_title motion_type : Str) (is_unanimous : Bool) :
    Option VoteRecord :=
  let vd := if is_unanimous then unanimousVD else computeVotes text
  if is_unanimous || !vd.ayes.isEmpty || !vd.noes.isEmpty || !vd.abstentions.isEmpty
      || !vd.recused.isEmpty || !vd.excused.isEmpty || !vd.non_voting.isEmpty then
    some {
      item_number := item_number
      motion_number := motion_number
      motion_title := pyStrip motion_title
      motion_type := motion_type
      legistar_number := legistar_number
      legistar_link := legistarLinkFor legistar_number
      description := descriptionOf motion_title text
      is_unanimous := is_unanimous
      ayes := vd.ayes
      ayes_count := vd.ayes_count
      noes := vd.noes
      noes_count := vd.noes_count
      abstentions := vd.abstentions
      abstentions_count := vd.abstentions_count
      excused := vd.excused
      excused_count := vd.excused_count
      recused := vd.recused
      recused_count := vd.recused_count
      non_voting := vd.non_voting
      non_voting_count := vd.non_voting_count
      page_number := page_number }
  else none

/-- Anchored case-sensitive match of `Label:\s*\d+\s*-` (no trailing
whitespace), the form used by the flag-free pattern of
src/unapproved_minutes.py line 104. -/
def matchHdrShortCSAt (s : Str) : Option Nat :=
  match hdrLabelsAll.find? (fun L => litStarts L s) with
  | none => none
  | some L =>
    match s.drop L.length with
    | ':' :: t =>
      let a := wsRun t
      let t1 := t.drop a
      let d := digRun t1
      if d == 0 then none
      else
        let t2 := t1.drop d
        let b := wsRun t2
        match t2.drop b with
        | '-' :: _ => some (L.length + 1 + a + d + b + 1)
        | _ => none
    | _ => none

def hdrFindShortCS (s : Str) : Option (Nat × Nat) :=
  (List.range (s.length + 1)).findSome?
    (fun i => (matchHdrShortCSAt (s.drop i)).map (fun k => (i, k)))

/-- `str(n)` for motion numbers. -/
def natStr (n : Nat) : Str := (Nat.repr n).data

/-- Anchored match of the motion-header pattern
`(?:Adopt the Following Amendment|Adopt(?:\s+Unanimously)?|(?:to\s+)?Call
the\s+Question)` (line 40, case-sensitive), returning the matched text.
Alternatives are tried in alternation order; the optional groups are
greedy. -/
def motionTypeAt (s : Str) : Option Str :=
  if litStarts ("Adopt the Following Amendment").data s then
    some ("Adopt the Following Amendment").data
  else if litStarts ("Adopt").data s then
    let t := s.drop 5
    let w := wsRun t
    if decide (0 < w) && litStarts ("Unanimously").data (t.drop w) then
      some (("Adopt").data ++ t.take w ++ ("Unanimously").data)
    else some ("Adopt").data
  else
    let tryCall : Str → Option Str := fun u =>
      if litStarts ("Call the").data u then
        let w := wsRun (u.drop 8)
        if decide (0 < w) && litStarts ("Question").data (u.drop (8 + w)) then
          some (("Call the").data ++ (u.drop 8).take w ++ ("Question").data)
        else none
      else none
    if litStarts ("to").data s then
      let w := wsRun (s.drop 2)
      if decide (0 < w) then
        match tryCall (s.drop (2 + w)) with
        | some m => some (("to").data ++ (s.drop 2).take w ++ m)
        | none => tryCall s
      else tryCall s
    else tryCall s

/-- `re.search` of the motion-header pattern: leftmost start index and
matched text. -/
def searchMotion (s : Str) : Option (Nat × Str) :=
  (List.range (s.length + 1)).findSome?
    (fun i => (motionTypeAt (s.drop i)).map (fun m => (i, m)))

/-- `str.replace('to ', '')`: delete each leftmost non-overlapping
occurrence. -/
def removeToSpGo : Nat → Str → Str
  | 0, s => s
  | _, [] => []
  | fuel + 1, c :: s =>
    if litStarts ("to ").data (c :: s) then removeToSpGo fuel ((c :: s).drop 3)
    else c :: removeToSpGo fuel s

def removeToSp (s : Str) : Str := removeToSpGo s.length s

/-- Line 431: `.replace('to ', '').replace('\n', ' ').strip().lower()`. -/
def normalizeMotion (m : Str) : Str :=
  lowStr (pyStrip ((removeToSp m).map (fun c => if c == '\n' then ' ' else c)))

/-- The alternative `\n\d+\.\s+\d{5,6}` of the vote-end lookahead
patterns. -/
def nlItemAt (s : Str) : Bool :=
  match s with
  | '\n' :: t =>
    let d := digRun t
    if d == 0 then false
    else
      match t.drop d with
      | '.' :: u =>
        let w := wsRun u
        decide (0 < w) && decide (5 ≤ digRun (u.drop w))
      | _ => false
  | _ => false

/-- The lookahead-only pattern of line 444 (with `re.IGNORECASE`): true at
a position where any alternative matches; `nextT` is the escaped literal
text of the next motion header. -/
def voteEndAt (nextT s : Str) : Bool :=
  ciStarts ("A motion was made by").data s || ciStarts ("End of").data s ||
  ciStarts ("Business Presented").data s || ciStarts ("City of Madison Page").data s ||
  nlItemAt s || ciStarts nextT s

def findVoteEnd (nextT s : Str) : Option Nat :=
  (List.range (s.length + 1)).find? (fun i => voteEndAt nextT (s.drop i))

/-- Anchored match of the item-number pattern `(?m)^\s*(\d+)\.\s+(\d+)`
(line 38) at a line-start position: consumed length and the two captured
digit groups.  The runs are forced (no whitespace character is a digit and
no digit is a dot), so matching is deterministic. -/
def itemMatchAt (s : Str) : Option (Nat × Str × Str) :=
  let a := wsRun s
  let t1 := s.drop a
  let d1 := digRun t1
  if d1 == 0 then none
  else
    match t1.drop d1 with
    | '.' :: t2 =>
      let b := wsRun t2
      if b == 0 then none
      else
        let t3 := t2.drop b
        let d2 := digRun t3
        if d2 == 0 then none
        else some (a + d1 + 1 + b + d2, t1.take d1, t3.take d2)
    | _ => none

def charAt (s : Str) (j : Nat) : Option Char := (s.drop j).head?

/-- A multiline `^` anchor holds at index 0 and after each newline. -/
def atLineStart (s : Str) (j : Nat) : Bool := j == 0 || charAt s (j - 1) == some '\n'

/-- `re.finditer` of the item-number pattern: scan left to right, matching
only at line-start anchors, resuming after each (non-overlapping) match. -/
def itemScanGo (s : Str) : Nat → Nat → List (Nat × Str × Str)
  | 0, _ => []
  | fuel + 1, i =>
    if s.length ≤ i then []
    else if atLineStart s i then
      match itemMatchAt (s.drop i) with
      | some (len, g1, g2) => (i, g1, g2) :: itemScanGo s fuel (i + len)
      | none => itemScanGo s fuel (i + 1)
    else itemScanGo s fuel (i + 1)

def findItems (s : Str) : List (Nat × Str × Str) := itemScanGo s (s.length + 1) 0

/-- Pair each item match with the start of the next one (`none` for the
last match, whose span runs to the end of the page text). -/
def withNext : List (Nat × Str × Str) → List (Nat × Str × Str × Option Nat)
  | [] => []
  | [(s, a, b)] => [(s, a, b, none)]
  | (s, a, b) :: (s2, a2, b2) :: rest => (s, a, b, some s2) :: withNext ((s2, a2, b2) :: rest)

/-- The `pending_vote` dict (lines 476-484). -/
structure Pend where
  item_number : Str
  legistar_number : Str
  text : Str
  motion_number : Str
  motion_title : Str
  motion_type : Str
  is_unanimous : Bool
deriving Repr, DecidableEq

/-- The labels checked by `has_vote_in_text` (line 440). -/
def voteLabelsColon : List Str :=
  [("Ayes:").data, ("Noes:").data, ("Abstentions:").data, ("Recused:").data,
   ("Excused:").data, ("Non Voting:").data]

/-- Outcome of the motion-bounding step of one loop iteration
(lines 427-460): skip past an adjacent duplicate header, abort the loop
because the remaining text failed to shrink, or produce the bounded motion
text together with the new remaining text. -/
inductive MotionStep where
  | dup (newRem : Str)
  | halt
  | seg (motionText newRem : Str)
deriving Repr, DecidableEq

def motionSegment (remaining : Str) (motionStart : Nat) (motionType : Str) : MotionStep :=
  match searchMotion (remaining.drop (motionStart + 1)) with
  | some (rel, nextT) =>
    let nextAbs := motionStart + 1 + rel
    let curN := normalizeMotion motionType
    let nextN := normalizeMotion nextT
    if curN = nextN ∨ containsLit nextN curN = true ∨ containsLit curN nextN = true then
      .dup (remaining.drop nextAbs)
    else
      let textUpToNext := (remaining.drop motionStart).take (nextAbs - motionStart)
      let hasVote := voteLabelsColon.any (fun v => containsLit v textUpToNext)
      let p :=
        if hasVote then
          match findVoteEnd nextT (remaining.drop motionStart) with
          | some ve =>
            if ve < nextAbs - motionStart then
              ((remaining.drop motionStart).take ve, remaining.drop (motionStart + ve))
            else (textUpToNext, remaining.drop nextAbs)
          | none => (textUpToNext, remaining.drop nextAbs)
        else (textUpToNext, remaining.drop nextAbs)
      if remaining.length ≤ p.2.length then .halt
      else .seg p.1 p.2
  | none => .seg (remaining.drop motionStart) []

/-- The completeness test and pending/emit decision of one loop iteration
(lines 462-498).  `n` is the 1-based motion number of this iteration,
`page` the 1-based page number passed to the Record Builder. -/
def motionOutcome (item leg : Str) (page : Nat) (n : Nat)
    (motionType motionText : Str) (pending : Option Pend) :
    Option Pend × List VoteRecord :=
  let isU := containsLit ("Unanimously").data motionType
  let hasAyes := containsLit ("Ayes:").data motionText
  let hasNoes := containsLit ("Noes:").data motionText
  let hasNV := containsLit ("Non Voting:").data motionText
  let isComplete := !hasAyes || (hasAyes && (hasNoes || hasNV)) || isU ||
    containsLit ("voice vote").data (lowStr motionText)
  if hasAyes && !isComplete then
    (some { item_number := item, legistar_number := leg, text := motionText,
            motion_number := natStr n, motion_title := motionType,
            motion_type := ("Main Motion").data, is_unanimous := isU }, [])
  else if isComplete then
    (pending,
     (processItem item leg motionText page (natStr n) motionType
       (("Main Motion").data) isU).toList)
  else (pending, [])

/-- The per-item motion loop (lines 413-505).  The source guards the loop
with `motion_number < max_motions` where `max_motions = 100` and increments
`motion_number` once at the top of every iteration; here `fuel` counts the
iterations still allowed (initially 100) and `mn` the iterations already
performed, so `mn + fuel = 100` throughout and the current motion number is
`mn + 1`.  `prevLen` models `prev_remaining_length`, which the
duplicate-header `continue` branch leaves untouched. -/
def motionLoop (item leg : Str) (page : Nat) :
    Nat → Nat → Str → Nat → Option Pend → Option Pend × List VoteRecord
  | 0, _, _, _, pending => (pending, [])
  | fuel + 1, mn, remaining, prevLen, pending =>
    match searchMotion remaining with
    | none => (pending, [])
    | some (motionStart, motionType) =>
      let n := mn + 1
      match motionSegment remaining motionStart motionType with
      | .dup newRem => motionLoop item leg page fuel n newRem prevLen pending
      | .halt => (pending, [])
      | .seg motionText newRem =>
        let pe := motionOutcome item leg page n motionType motionText pending
        if newRem = [] then pe
        else if newRem.length = prevLen then pe
        else
          let pr := motionLoop item leg page fuel n newRem newRem.length pe.1
          (pr.1, pe.2 ++ pr.2)

def runMotionLoop (item leg : Str) (page : Nat) (itemText : Str)
    (pending : Option Pend) : Option Pend × List VoteRecord :=
  motionLoop item leg page 100 0 itemText itemText.length pending

/-- The lookahead pattern of src/unapproved_minutes.py line 106
(`re.IGNORECASE`). -/
def extendEndAt (s : Str) : Bool :=
  ciStarts ("A motion was made by").data s || ciStarts ("End of").data s ||
  ciStarts ("Business Presented").data s || ciStarts ("City of Madison Page").data s ||
  nlItemAt s

/-- `extend_item_text_for_unapproved` (src/unapproved_minutes.py lines
82-111).  The vote-header search of line 104 carries no flags and is
case-sensitive; the vote-end search of line 106 is case-insensitive. -/
def extendItemText (itemText : Str) (fullText : Str)
    (itemStart nextItemStart : Nat) : Str :=
  let textAfterNext := (fullText.drop nextItemStart).take 1000
  if (hdrFindShortCS textAfterNext).isSome &&
      (containsLit ("Ayes:").data itemText || containsLit ("Noes:").data itemText) then
    match (List.range (textAfterNext.length + 1)).find?
        (fun i => extendEndAt (textAfterNext.drop i)) with
    | some ve => (fullText.take (nextItemStart + ve)).drop itemStart
    | none => itemText
  else itemText

/-- The cross-page completion test of lines 395-397: the merged pending
text has an `Ayes:` section and the new span carries a page footer or a new
`Adopt` header, or the merged text carries all four labels. -/
def pendCompletionOk (mergedText itemText : Str) : Bool :=
  (containsLit ("Ayes:").data mergedText &&
    (containsLit ("City of Madison Page").data itemText ||
     containsLit ("Adopt").data itemText)) ||
  (containsLit ("Ayes:").data mergedText && containsLit ("Noes:").data mergedText &&
   containsLit ("Excused:").data mergedText && containsLit ("Non Voting:").data mergedText)

/-- The span of one item (lines 383-390): from its match start to the next
item match (or the end of the page), extended for unapproved minutes when a
next item exists. -/
def itemSpanOf (ext : Bool) (text : Str) (start : Nat) (next? : Option Nat) : Str :=
  let nextStart := next?.getD text.length
  let itemText0 := (text.take nextStart).drop start
  if ext && next?.isSome then extendItemText itemText0 text start nextStart
  else itemText0

/-- The per-item loop of a page (lines 379-505): for each item span, either
consume a matching pending vote (lines 392-411) or run the motion loop over
the span.  `pageNum` is the 0-based page index; `_process_item` receives
`pageNum + 1`. -/
def itemsGo (ext : Bool) (pageNum : Nat) (text : Str) :
    Option Pend → List (Nat × Str × Str × Option Nat) → Option Pend × List VoteRecord
  | pending, [] => (pending, [])
  | pending, (start, g1, g2, next?) :: rest =>
    let itemText := itemSpanOf ext text start next?
    match pending with
    | some p =>
      if p.item_number = g1 then
        let p' := { p with text := p.text ++ '\n' :: itemText }
        if pendCompletionOk p'.text itemText then
          let recs := (processItem p.item_number p.legistar_number p'.text (pageNum + 1)
            p.motion_number p.motion_title p.motion_type p.is_unanimous).toList
          let pr := itemsGo ext pageNum text none rest
          (pr.1, recs ++ pr.2)
        else itemsGo ext pageNum text (some p') rest
      else
        let pe := runMotionLoop g1 g2 (pageNum + 1) itemText (some p)
        let pr := itemsGo ext pageNum text pe.1 rest
        (pr.1, pe.2 ++ pr.2)
    | none =>
      let pe := runMotionLoop g1 g2 (pageNum + 1) itemText none
      let pr := itemsGo ext pageNum text pe.1 rest
      (pr.1, pe.2 ++ pr.2)

/-- The page guard of line 373. -/
def pageTriggered (text : Str) : Bool :=
  !(text.isEmpty) && (containsLit ("Adopt").data text ||
    containsLit ("Ayes:").data text || containsLit ("Noes:").data text)

/-- One page of `_extract_votes_common` (lines 372-505). -/
def processPage (ext : Bool) (pending : Option Pend) (text : Str) (pageNum : Nat) :
    Option Pend × List VoteRecord :=
  if pageTriggered text then
    itemsGo ext pageNum text pending (withNext (findItems text))
  else (pending, [])

def pagesGo (ext : Bool) : Nat → Option Pend → List Str → List VoteRecord
  | _, _, [] => []
  | pageNum, pending, t :: rest =>
    let pr := processPage ext pending t pageNum
    pr.2 ++ pagesGo ext (pageNum + 1) pr.1 rest

/-- `_extract_votes_common` (lines 345-512), over the page-text sequence
supplied by the external Page Text Source. -/
def extractVotesCommon (ext : Bool) (pages : List Str) : List VoteRecord :=
  pagesGo ext 0 none pages

/-- `_extract_votes_approved` (lines 176-178). -/
def extractVotesApproved (pages : List Str) : List VoteRecord :=
  extractVotesCommon false pages

/-- Greedy `[^,\n]+` followed by a literal comma: the class run stops at
the first `,` or newline, and succeeds exactly when the stopper is the
comma.  Returns the captured run and the consumed length (run plus
comma). -/
def grpComma (t : Str) : Option (Str × Nat) :=
  let run := t.takeWhile (fun c => !(c == ',' || c == '\n'))
  if run.length == 0 then none
  else if (t.drop run.length).take 1 == [','] then some (run, run.length + 1)
  else none

/-- `\s+([^,\n]+),` with the backtracking of the greedy `\s+`: the maximal
whitespace run is tried first, then shorter (nonempty) runs, whose trailing
whitespace is then absorbed by the capture group. -/
def wsThenCommaGo (t : Str) : Nat → Option (Str × Nat)
  | 0 => none
  | w + 1 =>
    match grpComma (t.drop (w + 1)) with
    | some (g, k) => some (g, w + 1 + k)
    | none => wsThenCommaGo t w

def wsThenComma (t : Str) : Option (Str × Nat) := wsThenCommaGo t (wsRun t)

/-- The alternative `\d+\.\s+\d{5,6}` of the narrative lookaheads. -/
def itemRefAt (s : Str) : Bool :=
  let d := digRun s
  if d == 0 then false
  else
    match s.drop d with
    | '.' :: u =>
      let w := wsRun u
      decide (0 < w) && decide (5 ≤ digRun (u.drop w))
    | _ => false

/-- The final lookahead of the narrative motion pattern (line 205):
`(?=\.|A motion was made by|\d+\.\s+\d{5,6}|City of Madison Page)`. -/
def narG4LookAt (s : Str) : Bool :=
  s.take 1 == ['.'] || ciStarts ("A motion was made by").data s ||
  itemRefAt s || ciStarts ("City of Madison Page").data s

/-- Minimal nonempty length of the lazy group `([\s\S]+?)` ending where the
final lookahead holds. -/
def narG4 (t4 : Str) : Option Nat :=
  (List.range (t4.length + 1)).find?
    (fun e => decide (1 ≤ e) && narG4LookAt (t4.drop e))

/-- `([\s\S]+?)\.\s*The motion\s+([\s\S]+?)(?=...)`: the lazy third group
takes the smallest nonempty prefix after which `.\s*The motion\s+` and then
a successful fourth group follow; on a fourth-group failure the engine
backtracks to a longer third group, which the increasing scan realises.
Returns the two captures and the consumed length. -/
def narTail (t : Str) : Option (Str × Str × Nat) :=
  (List.range (t.length + 1)).findSome? (fun k =>
    if k == 0 then none
    else if (t.drop k).take 1 == ['.'] then
      let w := wsRun (t.drop (k + 1))
      if ciStarts ("The motion").data (t.drop (k + 1 + w)) then
        let afterTM := k + 1 + w + 10
        let w2 := wsRun (t.drop afterTM)
        if w2 == 0 then none
        else
          let t4 := t.drop (afterTM + w2)
          match narG4 t4 with
          | some e => some (t.take k, t4.take e, afterTM + w2 + e)
          | none => none
      else none
    else none)

/-- Anchored match of the narrative motion pattern of line 205
(`re.IGNORECASE | re.DOTALL`):
`A motion was made by\s+([^,\n]+),\s+seconded by\s+([^,\n]+),\s+to\s+`
followed by `narTail`.  Returns the total length and the four captures. -/
def narMatchAt (s : Str) : Option (Nat × Str × Str × Str × Str) :=
  if ciStarts ("A motion was made by").data s then
    match wsThenComma (s.drop 20) with
    | none => none
    | some (g1, k1) =>
      let p1 := 20 + k1
      let w := wsRun (s.drop p1)
      if decide (0 < w) && ciStarts ("seconded by").data ((s.drop p1).drop w) then
        let p2 := p1 + w + 11
        match wsThenComma (s.drop p2) with
        | none => none
        | some (g2, k3) =>
          let p3 := p2 + k3
          let w3 := wsRun (s.drop p3)
          if decide (0 < w3) && ciStarts ("to").data (s.drop (p3 + w3)) then
            let w4 := wsRun (s.drop (p3 + w3 + 2))
            if w4 == 0 then none
            else
              let p4 := p3 + w3 + 2 + w4
              match narTail (s.drop p4) with
              | none => none
              | some (g3, g4, k4) => some (p4 + k4, g1, g2, g3, g4)
          else none
      else none
  else none

/-- `re.finditer` of the narrative pattern: leftmost, non-overlapping. -/
def narScanGo (s : Str) : Nat → Nat → List (Nat × Nat × Str × Str × Str × Str)
  | 0, _ => []
  | fuel + 1, i =>
    if s.length ≤ i then []
    else
      match narMatchAt (s.drop i) with
      | some (len, g1, g2, g3, g4) => (i, len, g1, g2, g3, g4) :: narScanGo s fuel (i + len)
      | none => narScanGo s fuel (i + 1)

def narFindAll (s : Str) : List (Nat × Nat × Str × Str × Str × Str) :=
  narScanGo s (s.length + 1) 0

/-- `re.search` of the narrative pattern: index of the leftmost match. -/
def narSearchIdx (s : Str) : Option Nat :=
  (List.range (s.length + 1)).find? (fun i => (narMatchAt (s.drop i)).isSome)

/-- The lookahead of the narrative vote-end search (line 307,
`re.IGNORECASE`). -/
def narVoteEndAt (s : Str) : Bool :=
  ciStarts ("A motion was made by").data s || itemRefAt s ||
  ciStarts ("City of Madison Page").data s || ciStarts ("Enactment No:").data s

def findNarVoteEnd (s : Str) : Option Nat :=
  (List.range (s.length + 1)).find? (fun i => narVoteEndAt (s.drop i))

/-- The unanimity test of lines 242-246. -/
def motionResultUnanimous (result : Str) : Bool :=
  containsLit ("unanimously").data (lowStr result) ||
  containsLit ("voice vote").data (lowStr result) ||
  containsLit ("voice vote/other").data (lowStr result)

/-- The motion-category classification of lines 248-260. -/
def classifyMotion (motionText : Str) : Str :=
  let lt := lowStr motionText
  if containsLit ("adopt").data lt then
    if containsLit ("amendment").data lt then ("Amendment").data else ("Adopt").data
  else if containsLit ("call the question").data lt ||
      containsLit ("call question").data lt then ("Call the Question").data
  else if containsLit ("refer").data lt then ("Refer").data
  else if containsLit ("adjourn").data lt then ("Adjourn").data
  else ("Main Motion").data

/-- Processing of one narrative match (lines 220-336): item attribution,
unanimity and category classification, motion-context bounding, optional
vote-section capture, and the Record Builder call. -/
def narProcessMatch (records : List VoteRecord) (text : Str) (pageNum : Nat)
    (items : List (Nat × Str × Str)) (m : Nat × Nat × Str × Str × Str × Str) :
    List VoteRecord :=
  let pos := m.1
  let len := m.2.1
  let motionText := pyStrip m.2.2.2.2.1
  let motionResult := pyStrip m.2.2.2.2.2
  match (items.filter (fun it => it.1 < pos)).getLast? with
  | none => records
  | some (_, itemNum, leg) =>
    let isU := motionResultUnanimous motionResult
    let mtype := classifyMotion motionText
    match items.find? (fun it => it.2.1 = itemNum) with
    | none => records
    | some (itemStart, _, _) =>
      let motionEnd :=
        match narSearchIdx (text.drop (pos + 1)) with
        | some rel => pos + 1 + rel
        | none =>
          match (items.find? (fun it => pos < it.1)).map (fun it => it.1) with
          | some ni => ni
          | none => min text.length (itemStart + 2000)
      let hasExplicit := voteLabelsColon.any (fun v => containsLit v motionResult)
      let group0 := (text.drop pos).take len
      let fullMotionText :=
        if hasExplicit || containsLit ("following vote").data (lowStr motionResult) then
          let voteSection0 := (text.take motionEnd).drop (pos + len)
          let voteSection1 :=
            match hdrFindShortCI voteSection0 with
            | some (i, _) => voteSection0.drop i
            | none => voteSection0
          let voteSection :=
            match findNarVoteEnd voteSection1 with
            | some j => voteSection1.take j
            | none => voteSection1
          group0 ++ '\n' :: voteSection
        else group0
      let motionTitle := ("to ").data ++ motionText
      let motionCount := (records.filter (fun r => r.item_number = itemNum)).length + 1
      match processItem itemNum leg fullMotionText (pageNum + 1) (natStr motionCount)
          motionTitle mtype isU with
      | some r => records ++ [r]
      | none => records

/-- One page of `_extract_votes_unapproved` (lines 207-336): pages without
an item header are skipped. -/
def narPage (records : List VoteRecord) (text : Str) (pageNum : Nat) : List VoteRecord :=
  if text.isEmpty then records
  else
    let items := findItems text
    if items.isEmpty then records
    else (narFindAll text).foldl (fun recs m => narProcessMatch recs text pageNum items m) records

def narPagesGo : Nat → List VoteRecord → List Str → List VoteRecord
  | _, records, [] => records
  | pageNum, records, t :: rest => narPagesGo (pageNum + 1) (narPage records t pageNum) rest

/-- `_extract_votes_unapproved` (lines 180-343), over the page-text
sequence supplied by the external Page Text Source. -/
def extractVotesUnapproved (pages : List Str) : List VoteRecord :=
  narPagesGo 0 [] pages

/-- One exploded per-person row of the detailed output of
`process_single_pdf` (src/extract_votes.py lines 715-801). -/
structure DetailedRow where
  date : Str
  item_number : Str
  motion_number : Str
  motion_type : Str
  legistar_number : Str
  member_name : Str
  vote_type : Str
  is_unanimous : Bool
deriving Repr, DecidableEq

def mkRow (date : Str) (r : VoteRecord) (name vt : Str) (uni : Bool) : DetailedRow :=
  { date := date, item_number := r.item_number, motion_number := r.motion_number,
    motion_type := r.motion_type, legistar_number := r.legistar_number,
    member_name := pyStrip name, vote_type := vt, is_unanimous := uni }

/-- The exploded rows derived from one record (lines 715-801): a unanimous
record yields the single `ALL_PRESENT`/`UNANIMOUS_AYE` sentinel row;
otherwise one row per name per vote type, in source order, with the
`UNANIMOUS` sentinel filtered out of the ayes. -/
def detailedRows (date : Str) (r : VoteRecord) : List DetailedRow :=
  if r.is_unanimous then
    [{ date := date, item_number := r.item_number, motion_number := r.motion_number,
       motion_type := r.motion_type, legistar_number := r.legistar_number,
       member_name := ("ALL_PRESENT").data, vote_type := ("UNANIMOUS_AYE").data,
       is_unanimous := true }]
  else
    (r.ayes.filter (fun n => n ≠ ("UNANIMOUS").data)).map
        (fun n => mkRow date r n ("AYE").data false) ++
    r.noes.map (fun n => mkRow date r n ("NO").data false) ++
    r.abstentions.map (fun n => mkRow date r n ("ABSTAIN").data false) ++
    r.excused.map (fun n => mkRow date r n ("EXCUSED").data false) ++
    r.recused.map (fun n => mkRow date r n ("RECUSED").data false) ++
    r.non_voting.map (fun n => mkRow date r n ("NON_VOTING").data false)

/-- The six vote types of the Validator/Reconciler. -/
inductive VType where
  | ayes | noes | abstentions | excused | recused | nonVoting
deriving Repr, DecidableEq

def allVTypes : List VType :=
  [.ayes, .noes, .abstentions, .excused, .recused, .nonVoting]

def declaredTally (r : VoteRecord) : VType → Int
  | .ayes => r.ayes_count
  | .noes => r.noes_count
  | .abstentions => r.abstentions_count
  | .excused => r.excused_count
  | .recused => r.recused_count
  | .nonVoting => r.non_voting_count

def rowTag : VType → Str
  | .ayes => ("AYE").data
  | .noes => ("NO").data
  | .abstentions => ("ABSTAIN").data
  | .excused => ("EXCUSED").data
  | .recused => ("RECUSED").data
  | .nonVoting => ("NON_VOTING").data

def countRowsOfType (rows : List DetailedRow) (vt : VType) : Nat :=
  (rows.filter (fun w => w.vote_type = rowTag vt)).length

/-- Modelled from the spec: the repository has no Validator/Reconciler
component under src/; this definition follows section 4.6 of the
specification.  For a non-unanimous record it compares each declared
vote-type tally with the number of exploded rows carrying that vote type
and reports every disagreement as a per-vote-type breakdown entry
(vote type, declared tally, row count). -/
def validatorReport (r : VoteRecord) (rows : List DetailedRow) :
    List (VType × Int × Nat) :=
  if r.is_unanimous then []
  else
    (allVTypes.filter
        (fun vt => declaredTally r vt ≠ (countRowsOfType rows vt : Int))).map
      (fun vt => (vt, declaredTally r vt, countRowsOfType rows vt))

/-- Modelled from the spec: the Validator runs as a post-pass over the
produced records and their exploded rows, reports warnings, and performs no
mutation — records and rows are retained as-is. -/
def runValidator (date : Str) (rs : List VoteRecord) :
    List VoteRecord × List DetailedRow × List (List (VType × Int × Nat)) :=
  (rs, (rs.map (detailedRows date)).flatten,
   rs.map (fun r => validatorReport r (detailedRows date r)))

/-- A nonempty text does not start with whitespace. -/
def headNotWs : Str → Bool
  | [] => false
  | c :: _ => !pySpace c

def lastNotWs (n : Str) : Bool := headNotWs n.reverse

def lastNotPunct (n : Str) : Bool :=
  match n.reverse with
  | [] => true
  | c :: _ => !(c == '.' || c == ',' || c == ';')

/-- The literal truncation markers of `parse_names`. -/
def markerPats : List Str :=
  [("Enactment No:").data, ("City of Madison Page").data, ("REFER ALL").data,
   ("ADJOURN").data, ("SWEARING IN").data, ("CONVENE").data, ("ROLL CALL").data]

/-- A clean name: one on which every cleanup stage of the Name List Parser
acts as the identity — nonempty, no surrounding whitespace, not ending in
punctuation, no semicolon, no case-insensitive `and`, no truncation-marker
occurrence, no 5-digit run, whitespace already collapsed, no vote-type
header fragment, and not blocklisted. -/
def cleanName (n : Str) : Bool :=
  headNotWs n && lastNotWs n && lastNotPunct n &&
  !(n.contains ';') &&
  (findCI ("and").data n).isNone &&
  markerPats.all (fun p => (findCI p n).isNone) &&
  (findDig5 n).isNone &&
  (collapseWs n == n) &&
  (hdrFind1 n).isNone &&
  !blocklisted n

/-- Joining a name sequence with the canonical separator. -/
def joinNames (names : List Str) : Str := List.intercalate (("; ").data) names

/-- The record produced for the scenario text
`Ayes: 3 - Alice; Bob and Carol Noes: 1 - Dave`. -/
def c5Record : VoteRecord :=
  { item_number := ("8").data, motion_number := ("1").data,
    motion_title := ("Adopt").data, motion_type := ("Main Motion").data,
    legistar_number := ("78911").data,
    legistar_link := legistarLinkFor ("78911").data,
    description := [], is_unanimous := false,
    ayes := [("Alice").data, ("Bob").data, ("Carol").data], ayes_count := 3,
    noes := [("Dave").data], noes_count := 1,
    abstentions := [], abstentions_count := 0,
    excused := [], excused_count := 0,
    recused := [], recused_count := 0,
    non_voting := [], non_voting_count := 0,
    page_number := 1 }

/-- The narrative scenario sentence of the specification. -/
def c6Text : Str :=
  ("A motion was made by Smith, seconded by Jones, to Adopt the ordinance. The motion passed unanimously by voice vote/other.").data

/-- The narrative scenario sentence preceded by an item-number header. -/
def c6TextWithItem : Str := ("1. 12345 Some Item\n").data ++ c6Text

/-- The record produced for `c6TextWithItem` in narrative mode. -/
def c6Record : VoteRecord :=
  { item_number := ("1").data, motion_number := ("1").data,
    motion_title := ("to Adopt the ordinance").data, motion_type := ("Adopt").data,
    legistar_number := ("12345").data,
    legistar_link := legistarLinkFor ("12345").data,
    description := ("A motion was made by Smith, seconded by Jones,").data,
    is_unanimous := true,
    ayes := [("UNANIMOUS").data], ayes_count := -1,
    noes := [], noes_count := 0,
    abstentions := [], abstentions_count := 0,
    excused := [], excused_count := 0,
    recused := [], recused_count := 0,
    non_voting := [], non_voting_count := 0,
    page_number := 1 }

/-- A one-page tabular document with a unanimously adopted item. -/
def uPage : Str := ("1. 12345 Some Item\nAdopt Unanimously\nRoll call vote follows").data

/-- The record the tabular extractor produces for `uPage`. -/
def uRecord : VoteRecord :=
  { item_number := ("1").data, motion_number := ("1").data,
    motion_title := ("Adopt Unanimously").data, motion_type := ("Main Motion").data,
    legistar_number := ("12345").data,
    legistar_link := legistarLinkFor ("12345").data,
    description := [], is_unanimous := true,
    ayes := [("UNANIMOUS").data], ayes_count := -1,
    noes := [], noes_count := 0,
    abstentions := [], abstentions_count := 0,
    excused := [], excused_count := 0,
    recused := [], recused_count := 0,
    non_voting := [], non_voting_count := 0,
    page_number := 1 }

/-- The bounded motion text of a first-page motion whose vote section
breaks at the page boundary: an `Ayes:` section with no `Noes:` or
`Non Voting:` label. -/
def c4MotionText : Str := ("Adopt it now\nAyes: 12 - Alice; Bob; Carol").data

/-- The pending vote the tabular extractor carries across the page break
for `c4MotionText`. -/
def c4Pend : Pend :=
  { item_number := ("5").data, legistar_number := ("70001").data,
    text := c4MotionText, motion_number := ("1").data,
    motion_title := ("Adopt").data, motion_type := ("Main Motion").data,
    is_unanimous := false }

/-- The following page: a leading item with the same item id carrying the
rest of the vote section and a page footer. -/
def c4Page2 : Str :=
  ("5. 70001 continued\nNoes: 2 - Dave; Erin Non Voting: 1 - Fay\nCity of Madison Page 2").data

end Madison

namespace Madison

/-! ## Proofs -/

theorem motionOutcome_len_le_one (item leg : Str) (page n : Nat)
    (mty mtext : Str) (pend : Option Pend) :
    ((motionOutcome item leg page n mty mtext pend).2).length ≤ 1 := by
  unfold motionOutcome
  dsimp only
  split
  · simp
  · split
    · cases processItem item leg mtext page (natStr n) mty (("Main Motion").data)
        (containsLit ("Unanimously").data mty) <;> simp [Option.toList]
    · simp

/-- C1: the extraction entry point terminates on every finite page-text
sequence: all embedded scan functions are total, the per-item motion loop
performs at most its fuel of `max_motions = 100` iterations and therefore
emits at most 100 records per item span, the text handed to the section
split is capped at 50000 characters, and at most 200 sections are
processed. -/
theorem claim1_termination_caps :
    (∀ (item leg : Str) (page fuel mn : Nat) (rem : Str) (prevLen : Nat)
        (pend : Option Pend),
      ((motionLoop item leg page fuel mn rem prevLen pend).2).length ≤ fuel) ∧
    (∀ (item leg : Str) (page : Nat) (itemText : Str) (pend : Option Pend),
      ((runMotionLoop item leg page itemText pend).2).length ≤ 100) ∧
    (∀ t : Str, ((trimAtBoundary t).take 50000).length ≤ 50000 ∧
      (sectionsOf (trimAtBoundary t)).length ≤ 200) := by
  have hloop : ∀ (fuel : Nat) (item leg : Str) (page mn : Nat) (rem : Str)
      (prevLen : Nat) (pend : Option Pend),
      ((motionLoop item leg page fuel mn rem prevLen pend).2).length ≤ fuel := by
    intro fuel
    induction fuel with
    | zero => intro item leg page mn rem prevLen pend; simp [motionLoop]
    | succ fuel ih =>
      intro item leg page mn rem prevLen pend
      unfold motionLoop
      cases hs : searchMotion rem with
      | none => simp
      | some v =>
        obtain ⟨motionStart, motionType⟩ := v
        simp only
        cases hseg : motionSegment rem motionStart motionType with
        | dup newRem => exact le_trans (ih ..) (Nat.le_succ _)
        | halt => simp
        | seg motionText newRem =>
          simp only
          split
          · exact le_trans (motionOutcome_len_le_one ..) (by omega)
          · split
            · exact le_trans (motionOutcome_len_le_one ..) (by omega)
            · rw [List.length_append]
              have h1 := motionOutcome_len_le_one item leg page (mn + 1) motionType
                motionText pend
              have h2 := ih item leg page (mn + 1) newRem newRem.length
                (motionOutcome item leg page (mn + 1) motionType motionText pend).1
              omega
  refine ⟨fun item leg page fuel => hloop fuel item leg page,
    fun item leg page itemText pend => hloop 100 item leg page 0 itemText
      itemText.length pend, fun t => ⟨?_, ?_⟩⟩
  · exact List.length_take_le _ _
  · exact List.length_take_le _ _

/-- C3 counterexample: on the text `Ayes: 2 - page` (whose only name
candidate is blocklisted) the Record Builder parses a non-zero ayes tally
yet emits no record, refuting the claim that a record is emitted whenever
some tally is non-zero. -/
theorem claim3_counterexample :
    processItem ("9").data ("55555").data (("Ayes: 2 - page").data) 1 ("1").data
      (("Adopt").data) (("Main Motion").data) false = none ∧
    (computeVotes (("Ayes: 2 - page").data)).ayes_count = 2 := by
  decide

/-- C3 (amended): the Record Builder returns no record exactly when the
unanimity flag is false and all six name lists are empty; the six tallies
are not consulted by the emission test. -/
theorem claim3_rejection_iff (item leg text : Str) (page : Nat)
    (mn mtitle mtype : Str) (isU : Bool) :
    processItem item leg text page mn mtitle mtype isU = none ↔
      (isU = false ∧ (computeVotes text).ayes = [] ∧ (computeVotes text).noes = [] ∧
       (computeVotes text).abstentions = [] ∧ (computeVotes text).recused = [] ∧
       (computeVotes text).excused = [] ∧ (computeVotes text).non_voting = []) := by
  cases isU with
  | true => simp [processItem]
  | false =>
    unfold processItem
    dsimp only
    split
    · rename_i h; exact absurd h (by simp)
    · split
      · rename_i hcond
        simp only [reduceCtorEq, false_iff, not_and]
        intro _ h1 h2 h3 h4 h5 h6
        rw [h1, h2, h3, h4, h5, h6] at hcond
        simp at hcond
      · rename_i hcond
        simp only [Bool.or_eq_true, Bool.not_eq_true', not_or,
          Bool.not_eq_false, List.isEmpty_iff] at hcond
        obtain ⟨⟨⟨⟨⟨⟨_, h1⟩, h2⟩, h3⟩, h4⟩, h5⟩, h6⟩ := hcond
        simp [h1, h2, h3, h4, h5, h6]

/-- C5: on the scenario text
`Ayes: 3 - Alice; Bob and Carol Noes: 1 - Dave` the Record Builder, for a
non-unanimous motion, yields ayes `[Alice, Bob, Carol]` with tally 3 and
noes `[Dave]` with tally 1, and the exploded per-person output holds
exactly three `AYE` rows and one `NO` row (four rows in all). -/
theorem claim5_scenario (date : Str) :
    processItem ("8").data ("78911").data
        (("Ayes: 3 - Alice; Bob and Carol Noes: 1 - Dave").data) 1 ("1").data
        (("Adopt").data) (("Main Motion").data) false = some c5Record ∧
    ((detailedRows date c5Record).filter
        (fun w => w.vote_type = ("AYE").data)).length = 3 ∧
    ((detailedRows date c5Record).filter
        (fun w => w.vote_type = ("NO").data)).length = 1 ∧
    (detailedRows date c5Record).length = 4 :=
  ⟨by decide, by rfl, by rfl, by rfl⟩

/-- C6 counterexample: the scenario page text carries no item-number
header, and the narrative extractor skips any page without one, so the
extraction yields no record at all rather than the claimed single
record. -/
theorem claim6_counterexample : extractVotesUnapproved [c6Text] = [] := by
  decide

/-- C6 (amended): with an item-number header line preceding the narrative
sentence, narrative-mode extraction yields exactly one record, with motion
category `Adopt` and the unanimity flag set. -/
theorem claim6_narrative_scenario :
    extractVotesUnapproved [c6TextWithItem] = [c6Record] ∧
    c6Record.motion_type = ("Adopt").data ∧ c6Record.is_unanimous = true := by
  refine ⟨by decide, by decide, by decide⟩

/-- C8: the conjunction substitution of the Name List Parser uses
`\s*and\s*`, which also fires on an `and` embedded inside a word, so the
name `Sandra` is split into `S` and `ra` instead of being returned
unsplit — contradicting both the specification and the comment on
src/extract_votes.py line 102. -/
theorem claim8_and_inside_word :
    parseNames ("Sandra").data = [("S").data, ("ra").data] ∧
    parseNames ("Sandra").data ≠ [("Sandra").data] := by
  decide

/-- C9 counterexample: the parser output for `x..` is `[x.]` (only one
trailing punctuation mark is removed), and re-parsing the re-joined output
strips the remaining one, so idempotence on parser outputs fails. -/
theorem claim9_counterexample :
    parseNames ("x..").data = [("x.").data] ∧
    parseNames (joinNames [("x.").data]) = [("x").data] ∧
    parseNames (joinNames (parseNames ("x..").data)) ≠ parseNames ("x..").data := by
  decide

theorem processItem_motionType {i l t : Str} {p : Nat} {m mt mty : Str} {u : Bool}
    {r : VoteRecord} (h : processItem i l t p m mt mty u = some r) :
    r.motion_type = mty := by
  unfold processItem at h
  dsimp only at h
  split at h <;> split at h
  · cases h; rfl
  · simp at h
  · cases h; rfl
  · simp at h

theorem processItem_isUnanimous {i l t : Str} {p : Nat} {m mt mty : Str} {u : Bool}
    {r : VoteRecord} (h : processItem i l t p m mt mty u = some r) :
    r.is_unanimous = u := by
  unfold processItem at h
  dsimp only at h
  split at h <;> split at h
  · cases h; rfl
  · simp at h
  · cases h; rfl
  · simp at h

theorem processItem_unanimous_fields {i l t : Str} {p : Nat} {m mt mty : Str}
    {r : VoteRecord} (h : processItem i l t p m mt mty true = some r) :
    r.ayes = [("UNANIMOUS").data] ∧ r.ayes_count = -1 ∧
    r.noes = [] ∧ r.noes_count = 0 ∧
    r.abstentions = [] ∧ r.abstentions_count = 0 ∧
    r.excused = [] ∧ r.excused_count = 0 ∧
    r.recused = [] ∧ r.recused_count = 0 ∧
    r.non_voting = [] ∧ r.non_voting_count = 0 := by
  unfold processItem at h
  dsimp only at h
  split at h
  · split at h
    · cases h
      exact ⟨rfl, rfl, rfl, rfl, rfl, rfl, rfl, rfl, rfl, rfl, rfl, rfl⟩
    · rename_i hc
      simp at hc
  · rename_i hc
    simp at hc

theorem mem_motionOutcome {item leg : Str} {page n : Nat} {mty mtext : Str}
    {pend : Option Pend} {r : VoteRecord}
    (h : r ∈ (motionOutcome item leg page n mty mtext pend).2) :
    processItem item leg mtext page (natStr n) mty (("Main Motion").data)
      (containsLit ("Unanimously").data mty) = some r := by
  unfold motionOutcome at h
  dsimp only at h
  split at h
  · simp at h
  · split at h
    · cases hp : processItem item leg mtext page (natStr n) mty (("Main Motion").data)
        (containsLit ("Unanimously").data mty) with
      | none => rw [hp] at h; simp [Option.toList] at h
      | some r' => rw [hp] at h; simp [Option.toList] at h; rw [h]
    · simp at h

theorem pend_motionOutcome {item leg : Str} {page n : Nat} {mty mtext : Str}
    {pend : Option Pend}
    (hp : ∀ q, pend = some q → q.motion_type = ("Main Motion").data) :
    ∀ q, (motionOutcome item leg page n mty mtext pend).1 = some q →
      q.motion_type = ("Main Motion").data := by
  unfold motionOutcome
  dsimp only
  split
  · intro q hq
    cases hq
    rfl
  · split
    · exact hp
    · exact hp

theorem motionLoop_main (item leg : Str) (page : Nat) :
    ∀ (fuel mn : Nat) (rem : Str) (prevLen : Nat) (pend : Option Pend),
      (∀ q, pend = some q → q.motion_type = ("Main Motion").data) →
      (∀ r ∈ (motionLoop item leg page fuel mn rem prevLen pend).2,
        ∃ i l t pg m mt u,
          processItem i l t pg m mt (("Main Motion").data) u = some r) ∧
      (∀ q, (motionLoop item leg page fuel mn rem prevLen pend).1 = some q →
        q.motion_type = ("Main Motion").data) := by
  intro fuel
  induction fuel with
  | zero =>
    intro mn rem prevLen pend hp
    exact ⟨by simp [motionLoop], by simpa [motionLoop] using hp⟩
  | succ fuel ih =>
    intro mn rem prevLen pend hp
    unfold motionLoop
    cases hs : searchMotion rem with
    | none => exact ⟨by simp, by simpa using hp⟩
    | some v =>
      obtain ⟨motionStart, motionType⟩ := v
      dsimp only
      cases hseg : motionSegment rem motionStart motionType with
      | dup newRem => exact ih mn.succ newRem prevLen pend hp
      | halt => exact ⟨by simp, by simpa using hp⟩
      | seg motionText newRem =>
        dsimp only
        have hpe2 : ∀ r ∈ (motionOutcome item leg page (mn + 1) motionType
            motionText pend).2,
            ∃ i l t pg m mt u,
              processItem i l t pg m mt (("Main Motion").data) u = some r := by
          intro r hr
          exact ⟨item, leg, motionText, page, natStr (mn + 1), motionType, _,
            mem_motionOutcome hr⟩
        have hpe1 :=
          @pend_motionOutcome item leg page (mn + 1) motionType motionText _ hp
        split
        · exact ⟨hpe2, hpe1⟩
        · split
          · exact ⟨hpe2, hpe1⟩
          · have hrec := ih mn.succ newRem newRem.length
              (motionOutcome item leg page (mn + 1) motionType motionText pend).1 hpe1
            refine ⟨fun r hr => ?_, hrec.2⟩
            rcases List.mem_append.mp hr with h | h
            · exact hpe2 r h
            · exact hrec.1 r h

theorem itemsGo_main {ext : Bool} {pageNum : Nat} {text : Str} :
    ∀ (items : List (Nat × Str × Str × Option Nat)) (pend : Option Pend),
      (∀ q, pend = some q → q.motion_type = ("Main Motion").data) →
      (∀ r ∈ (itemsGo ext pageNum text pend items).2,
        ∃ i l t pg m mt u,
          processItem i l t pg m mt (("Main Motion").data) u = some r) ∧
      (∀ q, (itemsGo ext pageNum text pend items).1 = some q →
        q.motion_type = ("Main Motion").data) := by
  intro items
  induction items with
  | nil =>
    intro pend hp
    exact ⟨by simp [itemsGo], by simpa [itemsGo] using hp⟩
  | cons info rest ih =>
    intro pend hp
    obtain ⟨start, g1, g2, next?⟩ := info
    unfold itemsGo
    dsimp only
    cases pend with
    | none =>
      have hml := motionLoop_main g1 g2 (pageNum + 1) 100 0
        (itemSpanOf ext text start next?)
        (itemSpanOf ext text start next?).length none (by simp)
      have hrec := ih _ hml.2
      refine ⟨fun r hr => ?_, hrec.2⟩
      rcases List.mem_append.mp hr with h | h
      · exact hml.1 r h
      · exact hrec.1 r h
    | some p =>
      dsimp only
      split
      · split
        · rename_i heq _
          have hrec := ih none (by simp)
          refine ⟨fun r hr => ?_, hrec.2⟩
          rcases List.mem_append.mp hr with h | h
          · have h' : processItem p.item_number p.legistar_number
                (p.text ++ '\n' :: itemSpanOf ext text start next?) (pageNum + 1)
                p.motion_number p.motion_title p.motion_type p.is_unanimous =
                some r := Option.mem_def.mp (Option.mem_toList.mp h)
            rw [hp p rfl] at h'
            exact ⟨p.item_number, p.legistar_number, _, pageNum + 1,
              p.motion_number, p.motion_title, p.is_unanimous, h'⟩
          · exact hrec.1 r h
        · refine ih _ (fun q hq => ?_)
          cases hq
          exact hp p rfl
      · have hml := motionLoop_main g1 g2 (pageNum + 1) 100 0
          (itemSpanOf ext text start next?)
          (itemSpanOf ext text start next?).length (some p) (by
            intro q hq; cases hq; exact hp p rfl)
        have hrec := ih _ hml.2
        refine ⟨fun r hr => ?_, hrec.2⟩
        rcases List.mem_append.mp hr with h | h
        · exact hml.1 r h
        · exact hrec.1 r h

theorem pagesGo_main {ext : Bool} :
    ∀ (pages : List Str) (pageNum : Nat) (pend : Option Pend),
      (∀ q, pend = some q → q.motion_type = ("Main Motion").data) →
      ∀ r ∈ pagesGo ext pageNum pend pages,
        ∃ i l t pg m mt u,
          processItem i l t pg m mt (("Main Motion").data) u = some r := by
  intro pages
  induction pages with
  | nil => intro pageNum pend hp r hr; simp [pagesGo] at hr
  | cons t rest ih =>
    intro pageNum pend hp r hr
    unfold pagesGo at hr
    dsimp only at hr
    have hpage : (∀ r ∈ (processPage ext pend t pageNum).2,
        ∃ i l t' pg m mt u,
          processItem i l t' pg m mt (("Main Motion").data) u = some r) ∧
        (∀ q, (processPage ext pend t pageNum).1 = some q →
          q.motion_type = ("Main Motion").data) := by
      unfold processPage
      split
      · exact itemsGo_main _ pend hp
      · exact ⟨by simp, by simpa using hp⟩
    rcases List.mem_append.mp hr with h | h
    · exact hpage.1 r h
    · exact ih (pageNum + 1) _ hpage.2 r h

/-- C10: every record emitted by the tabular (approved-format) extraction
path carries motion category `Main Motion`, whichever motion header was
matched; the other categories can only be assigned by the narrative
path. -/
theorem claim10_tabular_main_motion (pages : List Str) (r : VoteRecord)
    (hr : r ∈ extractVotesApproved pages) :
    r.motion_type = ("Main Motion").data := by
  obtain ⟨i, l, t, pg, m, mt, u, hpi⟩ :=
    pagesGo_main pages 0 none (by simp) r hr
  exact processItem_motionType hpi

theorem mem_narProcessMatch {records : List VoteRecord} {text : Str}
    {pageNum : Nat} {items : List (Nat × Str × Str)}
    {m : Nat × Nat × Str × Str × Str × Str} {r : VoteRecord}
    (hr : r ∈ narProcessMatch records text pageNum items m) :
    r ∈ records ∨
      ∃ i l t pg mn mt mty u, processItem i l t pg mn mt mty u = some r := by
  unfold narProcessMatch at hr
  dsimp only at hr
  split at hr
  · exact Or.inl hr
  · split at hr
    · exact Or.inl hr
    · split at hr
      · rename_i r' hpi
        rcases List.mem_append.mp hr with h | h
        · exact Or.inl h
        · have hrr : r = r' := List.mem_singleton.mp h
          subst hrr
          exact Or.inr ⟨_, _, _, _, _, _, _, _, hpi⟩
      · exact Or.inl hr

theorem mem_narPage {records : List VoteRecord} {text : Str} {pageNum : Nat}
    {r : VoteRecord} (hr : r ∈ narPage records text pageNum) :
    r ∈ records ∨
      ∃ i l t pg mn mt mty u, processItem i l t pg mn mt mty u = some r := by
  unfold narPage at hr
  dsimp only at hr
  split at hr
  · exact Or.inl hr
  · split at hr
    · exact Or.inl hr
    · rename_i hnempty
      revert hr
      generalize narFindAll text = ms
      induction ms generalizing records with
      | nil => exact fun hr => Or.inl hr
      | cons m ms ih =>
        intro hr
        rw [List.foldl_cons] at hr
        rcases ih hr with h | h
        · exact mem_narProcessMatch h
        · exact Or.inr h

theorem mem_narPagesGo {pages : List Str} :
    ∀ (pageNum : Nat) (records : List VoteRecord) (r : VoteRecord),
      r ∈ narPagesGo pageNum records pages →
      r ∈ records ∨
        ∃ i l t pg mn mt mty u, processItem i l t pg mn mt mty u = some r := by
  induction pages with
  | nil => intro pageNum records r hr; exact Or.inl (by simpa [narPagesGo] using hr)
  | cons t rest ih =>
    intro pageNum records r hr
    unfold narPagesGo at hr
    rcases ih (pageNum + 1) _ r hr with h | h
    · exact mem_narPage h
    · exact Or.inr h

/-- C2: every record emitted by either extractor path with the unanimity
flag set carries exactly the sentinel ayes list `[UNANIMOUS]` with the
sentinel tally `-1`, and all five other name lists are empty with all
other tallies `0`. -/
theorem claim2_unanimous_sentinel (pages : List Str) (r : VoteRecord)
    (hr : r ∈ extractVotesApproved pages ∨ r ∈ extractVotesUnapproved pages)
    (hu : r.is_unanimous = true) :
    r.ayes = [("UNANIMOUS").data] ∧ r.ayes_count = -1 ∧
    r.noes = [] ∧ r.noes_count = 0 ∧
    r.abstentions = [] ∧ r.abstentions_count = 0 ∧
    r.excused = [] ∧ r.excused_count = 0 ∧
    r.recused = [] ∧ r.recused_count = 0 ∧
    r.non_voting = [] ∧ r.non_voting_count = 0 := by
  have hpi : ∃ i l t pg mn mt mty u, processItem i l t pg mn mt mty u = some r := by
    rcases hr with h | h
    · obtain ⟨i, l, t, pg, mn, mt, u, hpi⟩ := pagesGo_main pages 0 none (by simp) r h
      exact ⟨i, l, t, pg, mn, mt, _, u, hpi⟩
    · rcases mem_narPagesGo 0 [] r h with h' | h'
      · simp at h'
      · exact h'
  obtain ⟨i, l, t, pg, mn, mt, mty, u, hpi⟩ := hpi
  have husub : u = true := by rw [← processItem_isUnanimous hpi, hu]
  subst husub
  exact processItem_unanimous_fields hpi

theorem claim2_witness :
    uRecord.ayes = [("UNANIMOUS").data] ∧ uRecord.ayes_count = -1 ∧
    uRecord.noes = [] ∧ uRecord.noes_count = 0 ∧
    uRecord.abstentions = [] ∧ uRecord.abstentions_count = 0 ∧
    uRecord.excused = [] ∧ uRecord.excused_count = 0 ∧
    uRecord.recused = [] ∧ uRecord.recused_count = 0 ∧
    uRecord.non_voting = [] ∧ uRecord.non_voting_count = 0 :=
  claim2_unanimous_sentinel [uPage] uRecord (Or.inl (by decide)) (by decide)

theorem claim10_witness : uRecord.motion_type = ("Main Motion").data :=
  claim10_tabular_main_motion [uPage] uRecord (by decide)

/-- C4: cross-page continuation.  First conjunct (page N): a motion whose
bounded text has an `Ayes:` section but no `Noes:`/`Non Voting:` label, is
not unanimous and mentions no voice vote emits nothing and becomes the
pending vote.  Second conjunct (page N+1): when the leading item of the
next page carries the pending item id and the merged text has a completion
signal, the item loop emits exactly the one merged record built from the
merged text, clears the pending slot, and does not scan that span for
motions again. -/
theorem claim4_crosspage_merge :
    (∀ (item leg : Str) (page n : Nat) (mty mtext : Str) (pend : Option Pend),
      containsLit ("Ayes:").data mtext = true →
      containsLit ("Noes:").data mtext = false →
      containsLit ("Non Voting:").data mtext = false →
      containsLit ("Unanimously").data mty = false →
      containsLit ("voice vote").data (lowStr mtext) = false →
      motionOutcome item leg page n mty mtext pend =
        (some { item_number := item, legistar_number := leg, text := mtext,
                motion_number := natStr n, motion_title := mty,
                motion_type := ("Main Motion").data, is_unanimous := false }, [])) ∧
    (∀ (ext : Bool) (pageNum : Nat) (text : Str) (p : Pend)
        (start : Nat) (g1 g2 : Str) (next? : Option Nat)
        (rest : List (Nat × Str × Str × Option Nat)),
      p.item_number = g1 →
      pendCompletionOk (p.text ++ '\n' :: itemSpanOf ext text start next?)
        (itemSpanOf ext text start next?) = true →
      itemsGo ext pageNum text (some p) ((start, g1, g2, next?) :: rest) =
        ((itemsGo ext pageNum text none rest).1,
         (processItem p.item_number p.legistar_number
            (p.text ++ '\n' :: itemSpanOf ext text start next?) (pageNum + 1)
            p.motion_number p.motion_title p.motion_type p.is_unanimous).toList ++
          (itemsGo ext pageNum text none rest).2)) := by
  constructor
  · intro item leg page n mty mtext pend h1 h2 h3 h4 h5
    unfold motionOutcome
    simp [h1, h2, h3, h4, h5]
  · intro ext pageNum text p start g1 g2 next? rest h1 h2
    conv_lhs => rw [itemsGo]
    dsimp only
    rw [if_pos h1, if_pos h2]

theorem claim4_witness :
    motionOutcome ("5").data ("70001").data 1 1 ("Adopt").data c4MotionText none =
      (some c4Pend, []) ∧
    itemsGo false 1 c4Page2 (some c4Pend)
        [(0, ("5").data, ("70001").data, none)] =
      ((itemsGo false 1 c4Page2 none []).1,
       (processItem c4Pend.item_number c4Pend.legistar_number
          (c4Pend.text ++ '\n' :: itemSpanOf false c4Page2 0 none) 2
          c4Pend.motion_number c4Pend.motion_title c4Pend.motion_type
          c4Pend.is_unanimous).toList ++
        (itemsGo false 1 c4Page2 none []).2) := by
  constructor
  · exact claim4_crosspage_merge.1 (("5").data) (("70001").data) 1 1
      (("Adopt").data) c4MotionText none (by decide) (by decide) (by decide)
      (by decide) (by decide)
  · exact claim4_crosspage_merge.2 false 1 c4Page2 c4Pend 0 (("5").data)
      (("70001").data) none [] (by decide) (by decide)

/-- C7: for every non-unanimous record whose declared tally for some vote
type disagrees with the number of exploded rows carrying that vote type,
the Validator report contains the per-vote-type breakdown entry, and the
Validator returns both the records and the exploded rows unchanged. -/
theorem claim7_validator_report (date : Str) (rs : List VoteRecord)
    (r : VoteRecord) (vt : VType) (hmem : r ∈ rs) (hu : r.is_unanimous = false)
    (hne : declaredTally r vt ≠ (countRowsOfType (detailedRows date r) vt : Int)) :
    (vt, declaredTally r vt, countRowsOfType (detailedRows date r) vt) ∈
      validatorReport r (detailedRows date r) ∧
    validatorReport r (detailedRows date r) ∈ (runValidator date rs).2.2 ∧
    (runValidator date rs).1 = rs ∧
    (runValidator date rs).2.1 = (rs.map (detailedRows date)).flatten := by
  refine ⟨?_, ?_, rfl, rfl⟩
  · unfold validatorReport
    rw [if_neg (by simp [hu])]
    refine List.mem_map.mpr ⟨vt, List.mem_filter.mpr ⟨?_, by simpa using hne⟩, rfl⟩
    cases vt <;> simp [allVTypes]
  · unfold runValidator
    exact List.mem_map.mpr ⟨r, hmem, rfl⟩

theorem claim7_witness :
    (VType.ayes, declaredTally { c5Record with ayes_count := 7 } VType.ayes,
        countRowsOfType (detailedRows [] { c5Record with ayes_count := 7 })
          VType.ayes) ∈
      validatorReport { c5Record with ayes_count := 7 }
        (detailedRows [] { c5Record with ayes_count := 7 }) ∧
    validatorReport { c5Record with ayes_count := 7 }
        (detailedRows [] { c5Record with ayes_count := 7 }) ∈
      (runValidator [] [{ c5Record with ayes_count := 7 }]).2.2 ∧
    (runValidator [] [{ c5Record with ayes_count := 7 }]).1 =
      [{ c5Record with ayes_count := 7 }] ∧
    (runValidator [] [{ c5Record with ayes_count := 7 }]).2.1 =
      ([{ c5Record with ayes_count := 7 }].map (detailedRows [])).flatten :=
  claim7_validator_report [] [{ c5Record with ayes_count := 7 }]
    { c5Record with ayes_count := 7 } VType.ayes (by decide) (by decide) (by decide)

/-! Auxiliary lemmas for the idempotence of the Name List Parser on clean
input (C9). -/

theorem dropWhile_eq_self_of_headNotWs {n : Str} (h : headNotWs n = true) :
    n.dropWhile (fun c => pySpace c) = n := by
  cases n with
  | nil => rfl
  | cons c t =>
    simp only [headNotWs, Bool.not_eq_true'] at h
    simp [List.dropWhile_cons, h]

theorem pyStrip_eq_self {n : Str} (h1 : headNotWs n = true)
    (h2 : lastNotWs n = true) : pyStrip n = n := by
  unfold pyStrip
  rw [dropWhile_eq_self_of_headNotWs h1]
  rw [dropWhile_eq_self_of_headNotWs h2, List.reverse_reverse]

theorem wsRun_eq_zero_of_headNotWs {t : Str} (h : headNotWs t = true) :
    wsRun t = 0 := by
  cases t with
  | nil => rfl
  | cons c s =>
    simp only [headNotWs, Bool.not_eq_true'] at h
    simp [wsRun, h]

theorem headNotWs_append {n v : Str} (h : headNotWs n = true) :
    headNotWs (n ++ v) = true := by
  cases n with
  | nil => simp [headNotWs] at h
  | cons c t => simpa [headNotWs] using h

theorem lastNotWs_append {u v : Str} (h : lastNotWs v = true) :
    lastNotWs (u ++ v) = true := by
  unfold lastNotWs at *
  rw [List.reverse_append]
  exact headNotWs_append h

theorem ne_nil_of_headNotWs {n : Str} (h : headNotWs n = true) : n ≠ [] := by
  cases n with
  | nil => simp [headNotWs] at h
  | cons c t => simp

theorem lastNotWs_cons {c : Char} {n : Str} (h : n ≠ []) :
    lastNotWs (c :: n) = lastNotWs n := by
  unfold lastNotWs
  rw [List.reverse_cons]
  cases hn : n.reverse with
  | nil => exact absurd (List.reverse_eq_nil_iff.mp hn) h
  | cons d t => simp [headNotWs]

theorem hasNonWs_of_lastNotWs {n : Str} (hne : n ≠ []) (h : lastNotWs n = true) :
    ∃ d ∈ n, pySpace d = false := by
  unfold lastNotWs at h
  cases hn : n.reverse with
  | nil => exact absurd (List.reverse_eq_nil_iff.mp hn) hne
  | cons d t =>
    rw [hn] at h
    simp only [headNotWs, Bool.not_eq_true'] at h
    refine ⟨d, ?_, h⟩
    have : d ∈ n.reverse := by rw [hn]; exact List.mem_cons_self d t
    exact List.mem_reverse.mp this

theorem wsRun_append_of_hasNonWs {n v : Str} (h : ∃ d ∈ n, pySpace d = false) :
    wsRun (n ++ v) = wsRun n := by
  induction n with
  | nil => obtain ⟨d, hd, _⟩ := h; simp at hd
  | cons c t ih =>
    by_cases hc : pySpace c = true
    · obtain ⟨d, hd, hdw⟩ := h
      rcases List.mem_cons.mp hd with rfl | hdt
      · rw [hc] at hdw; cases hdw
      · simp only [List.cons_append, wsRun, hc, if_true, List.append_eq]
        rw [ih ⟨d, hdt, hdw⟩]
    · simp only [List.cons_append, wsRun, hc]
      simp [hc]

theorem drop_wsRun_cons {n : Str} (h : ∃ d ∈ n, pySpace d = false) :
    ∃ d t, n.drop (wsRun n) = d :: t ∧ pySpace d = false ∧ d ∈ n := by
  induction n with
  | nil => obtain ⟨d, hd, _⟩ := h; simp at hd
  | cons c t ih =>
    by_cases hc : pySpace c = true
    · obtain ⟨d, hd, hdw⟩ := h
      rcases List.mem_cons.mp hd with rfl | hdt
      · rw [hc] at hdw; cases hdw
      · simp only [wsRun, hc, if_true, List.drop_succ_cons]
        obtain ⟨d', t', he, hw, hm⟩ := ih ⟨d, hdt, hdw⟩
        exact ⟨d', t', he, hw, List.mem_cons_of_mem c hm⟩
    · simp only [wsRun, hc]
      exact ⟨c, t, by simp [hc], by simpa using hc, List.mem_cons_self c t⟩

theorem ciStarts_nil_false {a : Char} {p : Str} : ciStarts (a :: p) [] = false := rfl

theorem findCI_eq_none_iff {a : Char} {p s : Str} :
    findCI (a :: p) s = none ↔ ∀ i, ciStarts (a :: p) (s.drop i) = false := by
  unfold findCI
  rw [List.find?_eq_none]
  constructor
  · intro h i
    by_cases hi : i < s.length + 1
    · exact Bool.not_eq_true _ ▸ h i (List.mem_range.mpr hi)
    · rw [List.drop_eq_nil_of_le (by omega)]
      exact ciStarts_nil_false
  · intro h i _
    rw [h i]
    simp

theorem findDig5_eq_none_iff {s : Str} :
    findDig5 s = none ↔ ∀ i, dig5At (s.drop i) = false := by
  unfold findDig5
  rw [List.find?_eq_none]
  constructor
  · intro h i
    by_cases hi : i < s.length + 1
    · exact Bool.not_eq_true _ ▸ h i (List.mem_range.mpr hi)
    · rw [List.drop_eq_nil_of_le (by omega)]
      rfl
  · intro h i _
    rw [h i]
    simp

theorem ciStarts_append_left {pat u v : Str} (h : ciStarts pat (u ++ v) = true)
    (hl : pat.length ≤ u.length) : ciStarts pat u = true := by
  induction pat generalizing u with
  | nil => rfl
  | cons a p ih =>
    cases u with
    | nil => simp at hl
    | cons d u' =>
      simp only [List.cons_append, ciStarts, Bool.and_eq_true] at h ⊢
      exact ⟨h.1, ih h.2 (by simpa using hl)⟩

theorem ciStarts_append_mid {pat u v : Str} {c : Char}
    (h : ciStarts pat (u ++ c :: v) = true) (hl : u.length < pat.length) :
    lowChar c ∈ pat.map lowChar := by
  induction pat generalizing u with
  | nil => simp at hl
  | cons a p ih =>
    cases u with
    | nil =>
      simp only [List.nil_append, ciStarts, Bool.and_eq_true, beq_iff_eq] at h
      simp [← h.1]
    | cons d u' =>
      simp only [List.cons_append, ciStarts, Bool.and_eq_true] at h
      simp only [List.map_cons, List.mem_cons]
      exact Or.inr (ih h.2 (by simpa using hl))

theorem noOcc_append {a : Char} {p u v : Str} {c : Char}
    (hu : ∀ i, ciStarts (a :: p) (u.drop i) = false)
    (hv : ∀ i, ciStarts (a :: p) ((c :: v).drop i) = false)
    (hc : lowChar c ∉ (a :: p).map lowChar) :
    ∀ i, ciStarts (a :: p) ((u ++ c :: v).drop i) = false := by
  intro i
  by_cases hi : i ≤ u.length
  · rw [List.drop_append_eq_append_drop, Nat.sub_eq_zero_of_le hi, List.drop]
    by_cases hlen : (a :: p).length ≤ (u.drop i).length
    · by_contra hcs
      rw [Bool.not_eq_false] at hcs
      have h1 := ciStarts_append_left hcs hlen
      rw [hu i] at h1
      cases h1
    · by_contra hcs
      rw [Bool.not_eq_false] at hcs
      exact hc (ciStarts_append_mid hcs (by omega))
  · rw [List.drop_append_eq_append_drop,
      List.drop_eq_nil_of_le (by omega), List.nil_append]
    exact hv (i - u.length)

theorem noOcc_cons {a : Char} {p v : Str} {c : Char}
    (h0 : ciStarts (a :: p) (c :: v) = false)
    (hv : ∀ i, ciStarts (a :: p) (v.drop i) = false) :
    ∀ i, ciStarts (a :: p) ((c :: v).drop i) = false := by
  intro i
  cases i with
  | zero => exact h0
  | succ j => simpa using hv j

theorem ciStarts_cons_ne {a : Char} {p : Str} {c : Char} {v : Str}
    (h : lowChar a ≠ lowChar c) : ciStarts (a :: p) (c :: v) = false := by
  simp [ciStarts, h]

theorem dig5At_cons_false {c : Char} {v : Str} (h : isDig c = false) :
    dig5At (c :: v) = false := by
  unfold dig5At
  by_contra hd
  rw [Bool.not_eq_false, Bool.and_eq_true] at hd
  have : isDig c = true := by
    refine hd.2 ▸ (List.all_eq_true.mp hd.2) c ?_
    cases v <;> simp [List.take]
  rw [h] at this
  cases this

theorem dig5At_append_left {u v : Str} (h : dig5At (u ++ v) = true)
    (hl : 5 ≤ u.length) : dig5At u = true := by
  unfold dig5At at h ⊢
  rw [List.take_append_eq_append_take, show 5 - u.length = 0 by omega,
    List.take_zero, List.append_nil] at h
  exact h

theorem dig5At_append_mid {u v : Str} {c : Char}
    (h : dig5At (u ++ c :: v) = true) (hl : u.length < 5) : isDig c = true := by
  unfold dig5At at h
  rw [Bool.and_eq_true] at h
  refine List.all_eq_true.mp h.2 c ?_
  rw [List.take_append_eq_append_take]
  refine List.mem_append.mpr (Or.inr ?_)
  have h5 : 1 ≤ 5 - u.length := by omega
  cases h5' : 5 - u.length with
  | zero => omega
  | succ k => simp [List.take]

theorem noOccD_append {u v : Str} {c : Char}
    (hu : ∀ i, dig5At (u.drop i) = false)
    (hv : ∀ i, dig5At ((c :: v).drop i) = false)
    (hc : isDig c = false) :
    ∀ i, dig5At ((u ++ c :: v).drop i) = false := by
  intro i
  by_cases hi : i ≤ u.length
  · rw [List.drop_append_eq_append_drop, Nat.sub_eq_zero_of_le hi, List.drop]
    by_cases hlen : 5 ≤ (u.drop i).length
    · by_contra hd
      rw [Bool.not_eq_false] at hd
      have h1 := dig5At_append_left hd hlen
      rw [hu i] at h1
      cases h1
    · by_contra hd
      rw [Bool.not_eq_false] at hd
      rw [dig5At_append_mid hd (by omega)] at hc
      cases hc
  · rw [List.drop_append_eq_append_drop,
      List.drop_eq_nil_of_le (by omega), List.nil_append]
    exact hv (i - u.length)

theorem noOccD_cons {v : Str} {c : Char} (h0 : isDig c = false)
    (hv : ∀ i, dig5At (v.drop i) = false) :
    ∀ i, dig5At ((c :: v).drop i) = false := by
  intro i
  cases i with
  | zero => exact dig5At_cons_false h0
  | succ j => simpa using hv j

theorem joinNames_single {n : Str} : joinNames [n] = n := by
  simp [joinNames, List.intercalate]

theorem joinNames_cons {n r : Str} {rest : List Str} :
    joinNames (n :: r :: rest) = n ++ ';' :: ' ' :: joinNames (r :: rest) := by
  simp only [joinNames, List.intercalate, List.intersperse_cons_cons,
    List.flatten_cons]
  simp [String.data]

theorem intercalate_semi_single {n : Str} : List.intercalate [';'] [n] = n := by
  simp [List.intercalate]

theorem intercalate_semi_cons {n r : Str} {rest : List Str} :
    List.intercalate [';'] (n :: r :: rest) =
      n ++ ';' :: List.intercalate [';'] (r :: rest) := by
  simp only [List.intercalate, List.intersperse_cons_cons, List.flatten_cons]
  simp

theorem headNotWs_joinNames {names : List Str} (hne : names ≠ [])
    (h : ∀ n ∈ names, headNotWs n = true) : headNotWs (joinNames names) = true := by
  cases names with
  | nil => exact absurd rfl hne
  | cons n rest =>
    cases rest with
    | nil => rw [joinNames_single]; exact h n (by simp)
    | cons r rest' =>
      rw [joinNames_cons]
      exact headNotWs_append (h n (by simp))

theorem ne_nil_of_lastNotWs {n : Str} (h : lastNotWs n = true) : n ≠ [] := by
  cases n with
  | nil => simp [lastNotWs, headNotWs] at h
  | cons c t => simp

theorem joinNames_ne_nil {names : List Str} (hne : names ≠ [])
    (h : ∀ n ∈ names, n ≠ []) : joinNames names ≠ [] := by
  cases names with
  | nil => exact absurd rfl hne
  | cons n rest =>
    cases rest with
    | nil => rw [joinNames_single]; exact h n (by simp)
    | cons r rest' => rw [joinNames_cons]; simp

theorem lastNotWs_joinNames {names : List Str} (hne : names ≠ [])
    (h : ∀ n ∈ names, lastNotWs n = true) : lastNotWs (joinNames names) = true := by
  induction names with
  | nil => exact absurd rfl hne
  | cons n rest ih =>
    cases rest with
    | nil => rw [joinNames_single]; exact h n (by simp)
    | cons r rest' =>
      rw [joinNames_cons]
      have hj := ih (by simp) (fun m hm => h m (List.mem_cons_of_mem n hm))
      have hjne : joinNames (r :: rest') ≠ [] :=
        joinNames_ne_nil (by simp)
          (fun m hm => ne_nil_of_lastNotWs (h m (List.mem_cons_of_mem n hm)))
      refine lastNotWs_append ?_
      rw [lastNotWs_cons (by simp), lastNotWs_cons hjne]
      exact hj

/-- A pattern whose letters include no semicolon and whose first letter is
not a space or semicolon cannot occur in a join of names none of which
contains it: an occurrence cannot start inside the two-character separator
and cannot span it. -/
theorem joinNames_nil : joinNames [] = [] := by
  simp [joinNames, List.intercalate]

theorem noOcc_joinNames {a : Char} {p : Str} {names : List Str}
    (hsemi : lowChar ';' ∉ (a :: p).map lowChar)
    (ha1 : lowChar a ≠ ';') (ha2 : lowChar a ≠ ' ')
    (h : ∀ n ∈ names, ∀ i, ciStarts (a :: p) (n.drop i) = false) :
    ∀ i, ciStarts (a :: p) ((joinNames names).drop i) = false := by
  induction names with
  | nil =>
    intro i
    rw [joinNames_nil, List.drop_nil]
    exact ciStarts_nil_false
  | cons n rest ih =>
    cases rest with
    | nil =>
      rw [joinNames_single]
      exact h n (by simp)
    | cons r rest' =>
      rw [joinNames_cons]
      refine noOcc_append (h n (by simp)) ?_ hsemi
      refine noOcc_cons (ciStarts_cons_ne (by simpa using ha1)) ?_
      refine noOcc_cons (ciStarts_cons_ne (by simpa using ha2)) ?_
      exact ih (fun m hm => h m (List.mem_cons_of_mem n hm))

theorem noOccD_joinNames {names : List Str}
    (h : ∀ n ∈ names, ∀ i, dig5At (n.drop i) = false) :
    ∀ i, dig5At ((joinNames names).drop i) = false := by
  induction names with
  | nil =>
    intro i
    rw [joinNames_nil, List.drop_nil]
    rfl
  | cons n rest ih =>
    cases rest with
    | nil =>
      rw [joinNames_single]
      exact h n (by simp)
    | cons r rest' =>
      rw [joinNames_cons]
      refine noOccD_append (h n (by simp)) ?_ (by decide)
      refine noOccD_cons (by decide) ?_
      refine noOccD_cons (by decide) ?_
      exact ih (fun m hm => h m (List.mem_cons_of_mem n hm))

theorem truncCI_eq_self {pat s : Str} (h : findCI pat s = none) :
    truncCI pat s = s := by
  unfold truncCI
  rw [h]

theorem truncDig_eq_self {s : Str} (h : findDig5 s = none) : truncDig s = s := by
  unfold truncDig
  rw [h]

/-- All truncation markers leave a marker-free text unchanged. -/
theorem applyMarkers_eq_self {s : Str}
    (h : ∀ pat ∈ markerPats, findCI pat s = none)
    (hd : findDig5 s = none) : applyMarkers s = s := by
  unfold applyMarkers
  dsimp only
  simp only [markerPats, List.mem_cons, List.mem_singleton, forall_eq_or_imp,
    forall_eq] at h
  obtain ⟨h1, h2, h3, h4, h5, h6, h7, -⟩ := h
  rw [truncCI_eq_self h1, truncCI_eq_self h2, truncDig_eq_self hd,
    truncCI_eq_self h3, truncCI_eq_self h4, truncCI_eq_self h5,
    truncCI_eq_self h6, truncCI_eq_self h7]

theorem subAndGo_eq_self {s : Str}
    (h : ∀ i, ciStarts (("and").data) (s.drop i) = false) :
    ∀ fuel, subAndGo fuel s = s := by
  intro fuel
  induction fuel generalizing s with
  | zero => cases s <;> rfl
  | succ fuel ih =>
    cases s with
    | nil => rfl
    | cons c t =>
      unfold subAndGo
      dsimp only
      rw [h (wsRun (c :: t))]
      simp only [Bool.false_eq_true, if_false]
      rw [ih (fun i => by simpa using h (i + 1))]

theorem subAnd_eq_self {s : Str}
    (h : ∀ i, ciStarts (("and").data) (s.drop i) = false) : subAnd s = s :=
  subAndGo_eq_self h s.length

theorem normSemiGo_fuel :
    ∀ fuel fuel' (s : Str), s.length ≤ fuel → s.length ≤ fuel' →
      normSemiGo fuel s = normSemiGo fuel' s := by
  intro fuel
  induction fuel with
  | zero =>
    intro fuel' s h h'
    have hs : s = [] := List.eq_nil_of_length_eq_zero (Nat.le_zero.mp h)
    subst hs
    cases fuel' <;> rfl
  | succ fuel ih =>
    intro fuel' s h h'
    cases s with
    | nil => cases fuel' <;> rfl
    | cons c t =>
      cases fuel' with
      | zero => simp at h'
      | succ f' =>
        unfold normSemiGo
        dsimp only
        split
        · refine congrArg _ (ih f' _ ?_ ?_) <;>
          · simp only [List.length_drop, List.length_cons] at *
            omega
        · refine congrArg _ (ih f' t ?_ ?_) <;>
          · simp only [List.length_cons] at *
            omega

theorem take_one_drop_mem {l : Str} {w : Nat} {x : Char}
    (h : (l.drop w).take 1 = [x]) : x ∈ l := by
  cases hd : l.drop w with
  | nil => rw [hd] at h; simp at h
  | cons d t =>
    rw [hd] at h
    simp only [List.take_cons_succ, List.take_zero] at h
    have hx : x = d := by injection h with h1; exact h1.symm
    subst hx
    exact List.drop_subset w l (hd ▸ List.mem_cons_self x t)

theorem normSemi_cons_ne {c : Char} {u : Str}
    (hcond : ((c :: u).drop (wsRun (c :: u))).take 1 ≠ [';']) :
    normSemi (c :: u) = c :: normSemi u := by
  unfold normSemi
  show normSemiGo (u.length + 1) (c :: u) = c :: normSemiGo u.length u
  conv_lhs => unfold normSemiGo
  dsimp only
  rw [if_neg (by simpa using hcond)]

theorem normSemiGo_sep {t : Str} (ht : wsRun t = 0) (fuel : Nat) :
    normSemiGo (fuel + 1) (';' :: ' ' :: t) = ';' :: normSemiGo fuel t := by
  conv_lhs => unfold normSemiGo
  dsimp only
  have hws : wsRun (';' :: ' ' :: t) = 0 := by
    simp [wsRun, pySpace]
  rw [hws]
  have hws2 : wsRun ((';' :: ' ' :: t).drop (0 + 1)) = 1 := by
    simp [wsRun, pySpace, ht]
  rw [hws2]
  have hc : (((';' :: ' ' :: t).drop 0).take 1 == [';']) = true := by rfl
  rw [List.drop_zero] at hc ⊢
  simp only [List.take_succ_cons, List.take_zero, beq_self_eq_true, if_true]
  rfl

theorem normSemi_sep {t : Str} (ht : wsRun t = 0) :
    normSemi (';' :: ' ' :: t) = ';' :: normSemi t := by
  unfold normSemi
  show normSemiGo (t.length + 1 + 1) (';' :: ' ' :: t) = _
  rw [normSemiGo_sep ht]
  exact congrArg _ (normSemiGo_fuel _ _ _ (by omega) (le_refl _))

theorem normSemi_no_semi {s : Str} (h : ';' ∉ s) : normSemi s = s := by
  induction s with
  | nil => rfl
  | cons c t ih =>
    rw [normSemi_cons_ne ?_, ih (fun hm => h (List.mem_cons_of_mem c hm))]
    intro hc
    exact h (take_one_drop_mem hc)

theorem normSemi_name_sep {n t : Str} (hsemi : ';' ∉ n)
    (hlast : n ≠ [] → lastNotWs n = true) (ht : headNotWs t = true) :
    normSemi (n ++ ';' :: ' ' :: t) = n ++ ';' :: normSemi t := by
  induction n with
  | nil => simpa using normSemi_sep (wsRun_eq_zero_of_headNotWs ht)
  | cons c n' ih =>
    have hlcs : lastNotWs (c :: n') = true := hlast (by simp)
    have hcond : (((c :: n') ++ ';' :: ' ' :: t).drop
        (wsRun ((c :: n') ++ ';' :: ' ' :: t))).take 1 ≠ [';'] := by
      by_cases hc : pySpace c = true
      · have hn' : n' ≠ [] := by
          intro he
          subst he
          simp [lastNotWs, headNotWs, hc] at hlcs
        have hln' : lastNotWs n' = true := by rwa [lastNotWs_cons hn'] at hlcs
        have hnws := hasNonWs_of_lastNotWs hn' hln'
        have hw : wsRun ((c :: n') ++ ';' :: ' ' :: t) = 1 + wsRun n' := by
          simp only [List.cons_append, wsRun, hc, if_true, List.append_eq]
          rw [wsRun_append_of_hasNonWs hnws]
          omega
        obtain ⟨d, t', hdrop, hdw, hdm⟩ := drop_wsRun_cons hnws
        have hwle : wsRun n' ≤ n'.length := by
          have := congrArg List.length hdrop
          simp only [List.length_drop, List.length_cons] at this
          omega
        rw [hw]
        have : ((c :: n') ++ ';' :: ' ' :: t).drop (1 + wsRun n') =
            (n'.drop (wsRun n')) ++ ';' :: ' ' :: t := by
          rw [show (1 : Nat) + wsRun n' = wsRun n' + 1 by omega]
          simp only [List.cons_append, List.drop_succ_cons]
          rw [List.drop_append_eq_append_drop, Nat.sub_eq_zero_of_le hwle,
            List.drop]
        rw [this, hdrop]
        simp only [List.cons_append, List.take_cons_succ, List.take_zero]
        intro he
        have hd' : d = ';' := by simpa using he
        subst hd'
        exact hsemi (List.mem_cons_of_mem c hdm)
      · have hw : wsRun ((c :: n') ++ ';' :: ' ' :: t) = 0 := by
          simp [wsRun, hc]
        rw [hw, List.drop_zero]
        simp only [List.cons_append, List.take_cons_succ, List.take_zero]
        intro he
        have hc' : c = ';' := by simpa using he
        exact hsemi (hc' ▸ List.mem_cons_self c n')
    have hlast' : n' ≠ [] → lastNotWs n' = true := fun hn' => by
      rwa [lastNotWs_cons hn'] at hlcs
    rw [List.cons_append] at hcond ⊢
    rw [normSemi_cons_ne hcond,
      ih (fun hm => hsemi (List.mem_cons_of_mem c hm)) hlast']
    simp

theorem normSemi_joinNames {names : List Str} (hne : names ≠ [])
    (hsemi : ∀ n ∈ names, ';' ∉ n) (hhead : ∀ n ∈ names, headNotWs n = true)
    (hlast : ∀ n ∈ names, lastNotWs n = true) :
    normSemi (joinNames names) = List.intercalate [';'] names := by
  induction names with
  | nil => exact absurd rfl hne
  | cons n rest ih =>
    cases rest with
    | nil =>
      rw [joinNames_single, intercalate_semi_single]
      exact normSemi_no_semi (hsemi n (by simp))
    | cons r rest' =>
      rw [joinNames_cons, intercalate_semi_cons]
      rw [normSemi_name_sep (hsemi n (by simp)) (fun _ => hlast n (by simp))
        (headNotWs_joinNames (by simp)
          (fun m hm => hhead m (List.mem_cons_of_mem n hm)))]
      rw [ih (by simp) (fun m hm => hsemi m (List.mem_cons_of_mem n hm))
        (fun m hm => hhead m (List.mem_cons_of_mem n hm))
        (fun m hm => hlast m (List.mem_cons_of_mem n hm))]

theorem subHdr_eq_self {n : Str} (h : hdrFind1 n = none) : subHdr n = n := by
  cases n with
  | nil => rfl
  | cons c t =>
    show subHdrGo (t.length + 1) (c :: t) = c :: t
    unfold subHdrGo
    rw [h]

theorem rstripPunct_eq_self {n : Str} (h : lastNotPunct n = true) :
    rstripPunct n = n := by
  unfold rstripPunct
  unfold lastNotPunct at h
  cases hr : n.reverse with
  | nil => rfl
  | cons c t =>
    rw [hr] at h
    dsimp only at h ⊢
    simp only [Bool.not_eq_true'] at h
    rw [if_neg (by simp [h])]

/-- Destructuring of the `cleanName` conjunction. -/
theorem cleanName_parts {n : Str} (h : cleanName n = true) :
    headNotWs n = true ∧ lastNotWs n = true ∧ lastNotPunct n = true ∧
    n.contains ';' = false ∧ findCI (("and").data) n = none ∧
    (∀ p ∈ markerPats, findCI p n = none) ∧ findDig5 n = none ∧
    collapseWs n = n ∧ hdrFind1 n = none ∧ blocklisted n = false := by
  unfold cleanName at h
  simp only [Bool.and_eq_true, Bool.not_eq_true', Option.isNone_iff_eq_none,
    List.all_eq_true, beq_iff_eq] at h
  obtain ⟨⟨⟨⟨⟨⟨⟨⟨⟨h1, h2⟩, h3⟩, h4⟩, h5⟩, h6⟩, h7⟩, h8⟩, h9⟩, h10⟩ := h
  exact ⟨h1, h2, h3, h4, h5, h6, h7, h8, h9, h10⟩

/-- On a clean name the whole per-candidate pipeline of lines 108-119 is the
identity and the candidate is kept. -/
theorem candOut_clean {n : Str} (h : cleanName n = true) : candOut n = some n := by
  obtain ⟨h1, h2, h3, -, -, -, -, h8, h9, h10⟩ := cleanName_parts h
  have hne : n ≠ [] := ne_nil_of_headNotWs h1
  have hstrip : pyStrip n = n := pyStrip_eq_self h1 h2
  unfold candOut
  dsimp only
  rw [hstrip, if_neg hne, h8, subHdr_eq_self h9, rstripPunct_eq_self h3, hstrip,
    if_pos ⟨hne, h10⟩]

theorem filterMap_candOut_clean {l : List Str} (h : ∀ n ∈ l, cleanName n = true) :
    l.filterMap candOut = l := by
  induction l with
  | nil => rfl
  | cons n rest ih =>
    simp only [List.filterMap_cons, candOut_clean (h n (by simp)),
      ih (fun m hm => h m (List.mem_cons_of_mem n hm))]

/-- C9 (amended): joining clean names with `"; "` and re-parsing returns the
same sequence — parse after join is the identity on sequences of clean
names. -/
theorem claim9_idempotent_clean (names : List Str)
    (h : ∀ n ∈ names, cleanName n = true) :
    parseNames (joinNames names) = names := by
  by_cases hne : names = []
  · subst hne
    rw [joinNames_nil]
    rfl
  · have hparts := fun n hn => cleanName_parts (h n hn)
    have hhead : ∀ n ∈ names, headNotWs n = true := fun n hn => (hparts n hn).1
    have hlast : ∀ n ∈ names, lastNotWs n = true := fun n hn => (hparts n hn).2.1
    have hsemi : ∀ n ∈ names, ';' ∉ n := fun n hn => by
      simpa using (hparts n hn).2.2.2.1
    have hj : joinNames names ≠ [] :=
      joinNames_ne_nil hne (fun n hn => ne_nil_of_headNotWs (hhead n hn))
    have hstripJ : pyStrip (joinNames names) = joinNames names :=
      pyStrip_eq_self (headNotWs_joinNames hne hhead)
        (lastNotWs_joinNames hne hlast)
    have hmark : applyMarkers (joinNames names) = joinNames names := by
      refine applyMarkers_eq_self ?_ ?_
      · intro pat hpat
        have hper : ∀ n ∈ names, findCI pat n = none := fun n hn =>
          (hparts n hn).2.2.2.2.2.1 pat hpat
        simp only [markerPats, List.mem_cons, List.not_mem_nil, or_false] at hpat
        rcases hpat with rfl | rfl | rfl | rfl | rfl | rfl | rfl <;>
          exact findCI_eq_none_iff.mpr (noOcc_joinNames (by decide) (by decide)
            (by decide) (fun n hn => findCI_eq_none_iff.mp (hper n hn)))
      · exact findDig5_eq_none_iff.mpr (noOccD_joinNames
          (fun n hn => findDig5_eq_none_iff.mp (hparts n hn).2.2.2.2.2.2.1))
    have hand : subAnd (joinNames names) = joinNames names := by
      refine subAnd_eq_self ?_
      refine noOcc_joinNames (by decide) (by decide) (by decide) ?_
      exact fun n hn => findCI_eq_none_iff.mp (hparts n hn).2.2.2.2.1
    have hnorm : normSemi (joinNames names) = List.intercalate [';'] names :=
      normSemi_joinNames hne hsemi hhead hlast
    have hsplit : (List.intercalate [';'] names).splitOn ';' = names :=
      List.splitOn_intercalate names ';' hsemi hne
    unfold parseNames
    rw [if_neg hj]
    dsimp only
    rw [hstripJ, hmark, hand, hnorm, hsplit, filterMap_candOut_clean h]
    exact List.filter_eq_self.mpr (fun a ha => by
      simpa using ne_nil_of_headNotWs (hhead a ha))

/-- Concrete instance of the amended C9 claim: `Alice` and `Bob` are clean
and the round trip through `"Alice; Bob"` returns them unchanged. -/
theorem claim9_witness :
    (∀ n ∈ [("Alice").data, ("Bob").data], cleanName n = true) ∧
    parseNames (joinNames [("Alice").data, ("Bob").data]) =
      [("Alice").data, ("Bob").data] :=
  ⟨by decide, claim9_idempotent_clean [("Alice").data, ("Bob").data] (by decide)⟩

end Madison
